import Mathlib

/-!
Shallow embedding of the C-Vise `expression-detector` clang_delta pass
(`src/clang_delta/ExpressionDetector.cpp`) and proofs about its
candidate-selection, validity-filtering, structural-equality and rewrite
logic.

The clang AST, the source manager and the text rewriter are external
collaborators of the pass; they are modelled by explicit tree datatypes
below.  Node pointers (`Expr *`, `Stmt *`) are modelled by positions:
a statement is identified by `(function index, statement index)` and an
expression node inside a statement by `(root index, path of child
indices)`.  Distinct nodes of a program have distinct positions, which
mirrors pointer identity inside one translation unit.
-/

namespace CviseExprDetector

/-- Builtin type kinds (`clang::BuiltinType::Kind`), restricted to the kinds
`getFormatString` names plus `int128K`, an integer builtin that falls into
the `default:` branch of its switch. -/
inductive BuiltinKind
| boolK | charU | wcharU | ucharK | ushortK | uintK
| charS | scharK | wcharS | shortK | intK | char16K | char32K
| ulongK | longK | ulongLongK | longLongK
| floatK | doubleK | longDoubleK
| int128K
deriving DecidableEq, Repr

/-- Canonical C types as the pass queries them: builtin types, enum types
(complete or not), pointers, function types, and anything else. -/
inductive CType
| builtin (k : BuiltinKind)
| enumTy (complete : Bool)
| pointer (pointee : CType)
| funcTy
| otherTy
deriving DecidableEq, Repr

/-- Model of `clang::Type::isIntegerType`: builtin integer kinds, and in C a
complete (unscoped) enum type is an integer type. -/
def CType.isIntegerType : CType → Bool
| .builtin k =>
  match k with
  | .floatK | .doubleK | .longDoubleK => false
  | _ => true
| .enumTy complete => complete
| _ => false

/-- Model of `clang::Type::isFloatingType`. -/
def CType.isFloatingType : CType → Bool
| .builtin .floatK | .builtin .doubleK | .builtin .longDoubleK => true
| _ => false

/-- Model of `dyn_cast<BuiltinType>(Ty->getUnqualifiedDesugaredType())`:
only a builtin type yields a `BuiltinType`; enum, pointer and other types
yield `none`.  (Our `CType` is already canonical, so desugaring is the
identity.) -/
def CType.desugarAsBuiltin : CType → Option BuiltinKind
| .builtin k => some k
| _ => none

/-- Model of `getFormatString` (ExpressionDetector.cpp, lines 650-695).
The argument is the result of the `dyn_cast<BuiltinType>` at the call site
(line 726); `none` stands for the failure branch: a null `BuiltinType`, or
the `default:` case with `TransAssert(0 && "Bad BuiltinType!")`. -/
def getFormatStr : Option BuiltinKind → Option String
| none => none
| some k =>
  match k with
  | .boolK | .charU | .wcharU | .ucharK | .ushortK | .uintK => some "u"
  | .charS | .scharK | .wcharS | .shortK | .intK | .char16K | .char32K => some "d"
  | .ulongK => some "lu"
  | .longK => some "ld"
  | .ulongLongK => some "llu"
  | .longLongK => some "lld"
  | .floatK | .doubleK => some "f"
  | .longDoubleK => some "Lf"
  | .int128K => none

/-- Binary operator kinds (`clang::BinaryOperatorKind` subset). -/
inductive BinOpKind
| add | sub | mul | lt | eqOp | neOp | landOp | lorOp | comma
| assign | addAssign | subAssign
deriving DecidableEq, Repr

/-- Model of `BinaryOperator::isAssignmentOp` (plain and compound). -/
def BinOpKind.isAssignOp : BinOpKind → Bool
| .assign | .addAssign | .subAssign => true
| _ => false

/-- Compound assignment operators form the separate statement class
`CompoundAssignOperatorClass` in clang. -/
def BinOpKind.isCompound : BinOpKind → Bool
| .addAssign | .subAssign => true
| _ => false

/-- Unary operator kinds (`clang::UnaryOperatorKind` subset). -/
inductive UnOpKind
| postInc | postDec | preInc | preDec | addrOf | deref | lnot | neg | plusOp
deriving DecidableEq, Repr

/-- Model of `UnaryOperator::isIncrementDecrementOp`. -/
def UnOpKind.isIncDec : UnOpKind → Bool
| .postInc | .postDec | .preInc | .preDec => true
| _ => false

/-- A declaration; `uid` models pointer identity of the `Decl *`, `name`
its identifier, `isVar` whether `dyn_cast<VarDecl>` succeeds on it. -/
structure Decl where
  uid : Nat
  name : String
  isVar : Bool
deriving DecidableEq, Repr

mutual
/-- Expression nodes, mirroring the clang expression classes the pass
inspects.  Every constructor except `paren` carries the node's static type.
`condOp` (the conditional operator) stands for the expression classes that
fall into the `default:` branches of the pass's switches. -/
inductive Expr
| arraySub (base idx : Expr) (ty : CType)
| binOp (op : BinOpKind) (lhs rhs : Expr) (ty : CType)
| call (fn : Expr) (args : ExprList) (calleePure : Bool) (ty : CType)
| declRef (d : Decl) (ty : CType)
| member (base : Expr) (mem : Decl) (ty : CType)
| unOp (op : UnOpKind) (sub : Expr) (ty : CType)
| paren (sub : Expr)
| implCast (sub : Expr) (ty : CType)
| cCast (tyWritten : CType) (sub : Expr)
| intLit (width : Nat) (val : Nat) (ty : CType)
| floatLit (bits : Nat) (ty : CType)
| charLit (val : Nat) (ty : CType)
| strLit (bytes : List Nat) (ty : CType)
| condOp (c t e : Expr) (ty : CType)
deriving DecidableEq, Repr

/-- Argument lists of calls (kept as a mutual inductive so that all
recursions over expressions stay structural and kernel-computable). -/
inductive ExprList
| nil
| cons (head : Expr) (tail : ExprList)
deriving DecidableEq, Repr
end

/-- Statement classes (`clang::Stmt::StmtClass` subset); an expression
statement has the class of its expression node. -/
inductive StmtClass
| arraySubscriptC | binaryOperatorC | compoundAssignC | callC | declRefC
| memberC | unaryOperatorC | parenC | implicitCastC | cStyleCastC
| integerLiteralC | floatingLiteralC | characterLiteralC | stringLiteralC
| conditionalC | declStmtC | ifC | forC | whileC | doC
deriving DecidableEq, Repr

/-- Model of `Stmt::getStmtClass` on expression nodes. -/
def Expr.stmtClass : Expr → StmtClass
| .arraySub .. => .arraySubscriptC
| .binOp op .. => if op.isCompound then .compoundAssignC else .binaryOperatorC
| .call .. => .callC
| .declRef .. => .declRefC
| .member .. => .memberC
| .unOp .. => .unaryOperatorC
| .paren .. => .parenC
| .implCast .. => .implicitCastC
| .cCast .. => .cStyleCastC
| .intLit .. => .integerLiteralC
| .floatLit .. => .floatingLiteralC
| .charLit .. => .characterLiteralC
| .strLit .. => .stringLiteralC
| .condOp .. => .conditionalC

/-- Model of `Expr::getType` (the static type of the node). -/
def Expr.qualType : Expr → CType
| .arraySub _ _ ty => ty
| .binOp _ _ _ ty => ty
| .call _ _ _ ty => ty
| .declRef _ ty => ty
| .member _ _ ty => ty
| .unOp _ _ ty => ty
| .paren s => s.qualType
| .implCast _ ty => ty
| .cCast tyW _ => tyW
| .intLit _ _ ty => ty
| .floatLit _ ty => ty
| .charLit _ ty => ty
| .strLit _ ty => ty
| .condOp _ _ _ ty => ty

/-- Model of `Expr::IgnoreParenImpCasts` on node contents. -/
def Expr.ignoreParenImpCasts : Expr → Expr
| .paren s => s.ignoreParenImpCasts
| .implCast s _ => s.ignoreParenImpCasts
| e => e

/-- Model of `Expr::IgnoreParenCasts` on node contents (also strips
explicit C-style casts). -/
def Expr.ignoreParenCasts : Expr → Expr
| .paren s => s.ignoreParenCasts
| .implCast s _ => s.ignoreParenCasts
| .cCast _ s => s.ignoreParenCasts
| e => e

mutual
/-- Model of clang's conservative `Expr::HasSideEffects` (with possible
effects included): increment/decrement, assignments, and calls to functions
not known pure have side effects; otherwise a node has side effects iff
some child does.  (Volatile accesses are outside the model.) -/
def Expr.hasSideEffects : Expr → Bool
| .arraySub b i _ => b.hasSideEffects || i.hasSideEffects
| .binOp op l r _ => op.isAssignOp || l.hasSideEffects || r.hasSideEffects
| .call f args calleePure _ =>
  if calleePure then f.hasSideEffects || args.anySideEffects else true
| .declRef _ _ => false
| .member b _ _ => b.hasSideEffects
| .unOp op s _ => op.isIncDec || s.hasSideEffects
| .paren s => s.hasSideEffects
| .implCast s _ => s.hasSideEffects
| .cCast _ s => s.hasSideEffects
| .intLit _ _ _ => false
| .floatLit _ _ => false
| .charLit _ _ => false
| .strLit _ _ => false
| .condOp c t e _ => c.hasSideEffects || t.hasSideEffects || e.hasSideEffects

/-- Side-effect check over an argument list. -/
def ExprList.anySideEffects : ExprList → Bool
| .nil => false
| .cons a as => a.hasSideEffects || as.anySideEffects
end

/-- Identity of an expression node inside one statement: index of the
expression root within the statement, and path of child indices from that
root.  Two nodes of a program are the same object iff their statement and
node references coincide. -/
abbrev NodeRef := Nat × List Nat

mutual
/-- Pre-order enumeration (the `RecursiveASTVisitor` order) of all
expression nodes under `e`, each with its path; child order follows
clang's `children()`: for calls the callee comes before the arguments. -/
def Expr.subNodes : Expr → List Nat → List (List Nat × Expr)
| e@(.arraySub b i _), p => (p, e) :: (b.subNodes (p ++ [0]) ++ i.subNodes (p ++ [1]))
| e@(.binOp _ l r _), p => (p, e) :: (l.subNodes (p ++ [0]) ++ r.subNodes (p ++ [1]))
| e@(.call f args _ _), p => (p, e) :: (f.subNodes (p ++ [0]) ++ args.subNodesFrom p 1)
| e@(.declRef _ _), p => [(p, e)]
| e@(.member b _ _), p => (p, e) :: b.subNodes (p ++ [0])
| e@(.unOp _ s _), p => (p, e) :: s.subNodes (p ++ [0])
| e@(.paren s), p => (p, e) :: s.subNodes (p ++ [0])
| e@(.implCast s _), p => (p, e) :: s.subNodes (p ++ [0])
| e@(.cCast _ s), p => (p, e) :: s.subNodes (p ++ [0])
| e@(.intLit _ _ _), p => [(p, e)]
| e@(.floatLit _ _), p => [(p, e)]
| e@(.charLit _ _), p => [(p, e)]
| e@(.strLit _ _), p => [(p, e)]
| e@(.condOp c t el _), p =>
  (p, e) :: (c.subNodes (p ++ [0]) ++ (t.subNodes (p ++ [1]) ++ el.subNodes (p ++ [2])))

/-- Pre-order enumeration of the nodes of an argument list, the i-th
argument sitting at child index `i0 + i` of the parent. -/
def ExprList.subNodesFrom : ExprList → List Nat → Nat → List (List Nat × Expr)
| .nil, _, _ => []
| .cons a as, p, i => a.subNodes (p ++ [i]) ++ as.subNodesFrom p (i + 1)
end

/-- Path-aware `IgnoreParenImpCasts`: stripping wrappers descends into
child 0, so the stripped node's path extends the original path. -/
def stripRefPI : Expr → List Nat → Expr × List Nat
| .paren s, p => stripRefPI s (p ++ [0])
| .implCast s _, p => stripRefPI s (p ++ [0])
| e, p => (e, p)

/-- Path-aware `IgnoreParenCasts`. -/
def stripRefPC : Expr → List Nat → Expr × List Nat
| .paren s, p => stripRefPC s (p ++ [0])
| .implCast s _, p => stripRefPC s (p ++ [0])
| .cCast _ s, p => stripRefPC s (p ++ [0])
| e, p => (e, p)

mutual
/-- Fuel-driven body of `ExpressionDetector::isIdenticalExpr`
(ExpressionDetector.cpp, lines 407-503).  The first four equations are the
`IgnoreParenImpCasts` stripping of both arguments; a pair of distinct
constructors is the `SC1 != SC2` failure; within one constructor the
side-effect test comes first, then the pairwise child comparison, then the
kind-specific payload rule of the `switch`.  `condOp` stands for the
classes that reach the switch's `default:` and yield `false`.  The fuel
only makes the two-sided recursion structural; `isIdenticalExpr` below
always supplies enough of it. -/
def isIdentFuel : Nat → Expr → Expr → Bool
| 0, _, _ => false
| n + 1, .paren s1, e2 => isIdentFuel n s1 e2
| n + 1, .implCast s1 _, e2 => isIdentFuel n s1 e2
| n + 1, e1, .paren s2 => isIdentFuel n e1 s2
| n + 1, e1, .implCast s2 _ => isIdentFuel n e1 s2
| n + 1, .arraySub b1 i1 t1, .arraySub b2 i2 t2 =>
  !(Expr.hasSideEffects (.arraySub b1 i1 t1) || Expr.hasSideEffects (.arraySub b2 i2 t2)) &&
  (isIdentFuel n b1 b2 && isIdentFuel n i1 i2)
| n + 1, .binOp o1 l1 r1 t1, .binOp o2 l2 r2 t2 =>
  !(Expr.hasSideEffects (.binOp o1 l1 r1 t1) || Expr.hasSideEffects (.binOp o2 l2 r2 t2)) &&
  (isIdentFuel n l1 l2 && isIdentFuel n r1 r2) && decide (o1 = o2)
| n + 1, .call f1 a1 p1 t1, .call f2 a2 p2 t2 =>
  !(Expr.hasSideEffects (.call f1 a1 p1 t1) || Expr.hasSideEffects (.call f2 a2 p2 t2)) &&
  (isIdentFuel n f1 f2 && isIdentListFuel n a1 a2)
| _ + 1, .declRef d1 _, .declRef d2 _ => decide (d1 = d2)
| n + 1, .member b1 m1 t1, .member b2 m2 t2 =>
  !(Expr.hasSideEffects (.member b1 m1 t1) || Expr.hasSideEffects (.member b2 m2 t2)) &&
  isIdentFuel n b1 b2 && decide (m1 = m2)
| n + 1, .unOp o1 s1 t1, .unOp o2 s2 t2 =>
  !(Expr.hasSideEffects (.unOp o1 s1 t1) || Expr.hasSideEffects (.unOp o2 s2 t2)) &&
  isIdentFuel n s1 s2 && decide (o1 = o2)
| n + 1, .cCast w1 s1, .cCast w2 s2 =>
  !(Expr.hasSideEffects (.cCast w1 s1) || Expr.hasSideEffects (.cCast w2 s2)) &&
  isIdentFuel n s1 s2 && decide (w1 = w2)
| _ + 1, .intLit w1 v1 _, .intLit w2 v2 _ => decide (w1 = w2) && decide (v1 = v2)
| _ + 1, .floatLit b1 _, .floatLit b2 _ => decide (b1 = b2)
| _ + 1, .charLit v1 _, .charLit v2 _ => decide (v1 = v2)
| _ + 1, .strLit s1 _, .strLit s2 _ => decide (s1 = s2)
| _ + 1, .condOp _ _ _ _, .condOp _ _ _ _ => false
| _ + 1, _, _ => false

/-- Pairwise child comparison, the `child_begin`/`child_end` loop of
`isIdenticalExpr`: fails when the arities differ. -/
def isIdentListFuel : Nat → ExprList → ExprList → Bool
| _, .nil, .nil => true
| n + 1, .cons a as, .cons b bs => isIdentFuel n a b && isIdentListFuel n as bs
| _, _, _ => false
end

mutual
/-- Number of nodes of an expression tree (used as recursion fuel). -/
def Expr.size : Expr → Nat
| .arraySub b i _ => b.size + i.size + 1
| .binOp _ l r _ => l.size + r.size + 1
| .call f args _ _ => f.size + args.size + 1
| .declRef _ _ => 1
| .member b _ _ => b.size + 1
| .unOp _ s _ => s.size + 1
| .paren s => s.size + 1
| .implCast s _ => s.size + 1
| .cCast _ s => s.size + 1
| .intLit _ _ _ => 1
| .floatLit _ _ => 1
| .charLit _ _ => 1
| .strLit _ _ => 1
| .condOp c t e _ => c.size + t.size + e.size + 1

/-- Total node count of an argument list. -/
def ExprList.size : ExprList → Nat
| .nil => 0
| .cons a as => a.size + as.size
end

/-- Model of `ExpressionDetector::isIdenticalExpr` (lines 407-503); the
fuel `e1.size + e2.size` strictly dominates the recursion depth, so the
fuel never runs out. -/
def isIdenticalExpr (e1 e2 : Expr) : Bool :=
  isIdentFuel (e1.size + e2.size) e1 e2

/-- Reserved name prefix of capture temporaries.  Modelled from the spec:
the defining header (ExpressionDetector.h) is not under src/; the value
follows the pass's own comments (`__cvise_expr_tmp_xxx`, lines 42 and
400). -/
def TmpVarNamePrefix : String := "__cvise_expr_tmp_"

/-- Reserved name prefix of print-mode control variables.  Modelled from
the spec: value from the comment `__cvise_printed_yy` (line 400). -/
def PrintedVarNamePrefix : String := "__cvise_printed_"

/-- Reserved name prefix of check-mode control variables.  Modelled from
the spec: value from the comment `__cvise_checked_zzz` (line 400). -/
def CheckedVarNamePrefix : String := "__cvise_checked_"

/-- Kernel-computable `StringRef::startswith`. -/
def strStarts (pre s : String) : Bool := pre.data.isPrefixOf s.data

/-- Model of `ExpressionDetector::refToTmpVar` (lines 396-404). -/
def refToTmpVar (nd : Decl) : Bool :=
  strStarts TmpVarNamePrefix nd.name ||
  strStarts PrintedVarNamePrefix nd.name ||
  strStarts CheckedVarNamePrefix nd.name

/-- Statements as the pass's `CommonStatementVisitor` presents them.
Modelled from the spec: CommonStatementVisitor.h is not under src/; per
the spec a candidate's statement `S` is the smallest enclosing
full-expression context, so each statement carries exactly the expression
roots whose sub-expressions are visited with that statement current
(an `if`'s branches and a loop's body are separate statements of the
surrounding list). -/
inductive Stmt
| exprS (e : Expr)
| declS (d : Decl) (ty : CType) (declInit : Option Expr)
| groupDeclS (ds : List (Decl × CType × Option Expr))
| ifS (cond : Expr)
| forS (finit fcond finc : Option Expr)
| whileS (cond : Expr)
| doS (cond : Expr)
deriving DecidableEq, Repr

/-- Model of `Stmt::getStmtClass` on statements; an expression statement
is the expression node itself. -/
def Stmt.stmtClass : Stmt → StmtClass
| .exprS e => e.stmtClass
| .declS .. => .declStmtC
| .groupDeclS .. => .declStmtC
| .ifS .. => .ifC
| .forS .. => .forC
| .whileS .. => .whileC
| .doS .. => .doC

/-- Expression roots of a statement, in traversal order. -/
def Stmt.exprRoots : Stmt → List Expr
| .exprS e => [e]
| .declS _ _ declInit => declInit.toList
| .groupDeclS ds => ds.filterMap (fun dti => dti.2.2)
| .ifS c => [c]
| .forS finit fcond finc => finit.toList ++ fcond.toList ++ finc.toList
| .whileS c => [c]
| .doS c => [c]

/-- All expression nodes of a statement with their node references, in
the visitor's pre-order. -/
def Stmt.allNodes (s : Stmt) : List (NodeRef × Expr) :=
  s.exprRoots.enum.foldr
    (fun re acc =>
      ((re.2.subNodes []).map (fun pe => ((re.1, pe.1), pe.2))) ++ acc) []

/-- Identity of a statement within the translation unit: function index
and statement index (distinct statements are distinct objects, mirroring
`Stmt *` keys of the pass's `DenseMap` caches). -/
abbrev StmtKey := Nat × Nat

/-- Association-list lookup (models `DenseMap::find`). -/
def alookup {κ α : Type} [DecidableEq κ] : List (κ × α) → κ → Option α
| [], _ => none
| (k2, v) :: rest, k => if k2 = k then some v else alookup rest k

/-- Association-list update (models `DenseMap::operator[] =`). -/
def aupdate {κ α : Type} [DecidableEq κ] : List (κ × α) → κ → α → List (κ × α)
| [], k, v => [(k, v)]
| (k2, v2) :: rest, k, v =>
  if k2 = k then (k, v) :: rest else (k2, v2) :: aupdate rest k v

/-- Model of `LocalUOBOVisitor` (lines 153-184) run by `TraverseStmt(S)`:
the references of all nodes that are (after `IgnoreParenImpCasts`) the
operand of an increment/decrement or address-of unary operator, or the
left-hand side of an assignment (plain or compound) binary operator,
anywhere inside `S`. -/
def computeUOBO (s : Stmt) : List NodeRef :=
  s.allNodes.foldr
    (fun rn acc =>
      match rn with
      | ((r, p), .unOp op sub _) =>
        if op.isIncDec || op = .addrOf then (r, (stripRefPI sub (p ++ [0])).2) :: acc else acc
      | ((r, p), .binOp op l _ _) =>
        if op.isAssignOp then (r, (stripRefPI l (p ++ [0])).2) :: acc else acc
      | _ => acc) []

/-- Model of `LocalTmpVarCollector` (lines 126-148) run by
`TraverseStmt(S)`: every `VarDecl` referenced inside `S` whose name starts
with the capture-temporary prefix, in visit order. -/
def collectTmpVars (s : Stmt) : List Decl :=
  s.allNodes.foldr
    (fun rn acc =>
      match rn with
      | (_, .declRef d _) =>
        if d.isVar && strStarts TmpVarNamePrefix d.name then d :: acc else acc
      | _ => acc) []

/-- The latched selection: `TheFunc`/`TheStmt`/`TheExpr` of the pass.
`funcIdx`, `stmtIdx` and `exprRef` are the node's identity; `stmt` and
`expr` are the contents the latched pointers give access to. -/
structure Triple where
  funcIdx : Nat
  stmtIdx : Nat
  exprRef : NodeRef
  stmt : Stmt
  expr : Expr
deriving DecidableEq, Repr

/-- The mutable state of one `ExpressionDetector` run: the four memoizing
caches, the ordinal counter `ValidInstanceNum`, and the latched triple. -/
structure DetState where
  uniqueExprs : List (StmtKey × List Expr)
  processedExprs : List (Nat × Expr)
  invalidExprsInUOBO : List (StmtKey × List NodeRef)
  tmpVarsInStmt : List (StmtKey × List Decl)
  validInstanceNum : Nat
  theTriple : Option Triple
deriving DecidableEq, Repr

/-- Model of `ExpressionDetector::hasIdenticalExpr` (lines 505-514). -/
def hasIdenticalExpr (processed : List (Nat × Expr)) (tmpVars : List Decl)
    (e : Expr) : Bool :=
  tmpVars.any fun v =>
    match alookup processed v.uid with
    | some ie => isIdenticalExpr ie e
    | none => false

/-- The tail of `isValidExpr` (lines 629-647): look up or compute the
temporary variables referenced in `S` and reject `E` if it is identical to
the initializer of one of them. -/
def tmpVarStage (st : DetState) (key : StmtKey) (s : Stmt) (e : Expr) :
    Bool × DetState :=
  match alookup st.tmpVarsInStmt key with
  | none =>
    let tvs := collectTmpVars s
    let st1 := { st with tmpVarsInStmt := aupdate st.tmpVarsInStmt key tvs }
    if hasIdenticalExpr st1.processedExprs tvs e then (false, st1) else (true, st1)
  | some tvs =>
    if hasIdenticalExpr st.processedExprs tvs e then (false, st)
    else (true, st)

/-- The duplicate-suppression stage of `isValidExpr` (lines 615-626):
reject `E` if it is identical to an expression already recorded for `S`;
otherwise push `E` onto `S`'s unique-expression list and continue with the
temporary-variable stage. -/
def uniqueStage (st : DetState) (key : StmtKey) (s : Stmt) (e : Expr) :
    Bool × DetState :=
  let vec := (alookup st.uniqueExprs key).getD []
  if vec.any (fun i => isIdenticalExpr i e) then (false, st)
  else
    let st1 := { st with uniqueExprs := aupdate st.uniqueExprs key (vec ++ [e]) }
    tmpVarStage st1 key s e

/-- Loop statement classes rejected as host statements (lines 519-524). -/
def isLoopClass (sc : StmtClass) : Bool :=
  sc = .forC || sc = .doC || sc = .whileC

/-- Self-replacement check (lines 526-531): `S`, seen as an expression and
stripped with `IgnoreParenCasts`, is the very node `E`. -/
def selfReplaceCheck (s : Stmt) (eref : NodeRef) : Bool :=
  match s with
  | .exprS root => decide (((0 : Nat), (stripRefPC root []).2) = eref)
  | _ => false

/-- Declaration-statement check (lines 533-543): reject single
declarations of the pass's own reserved names, and all group
declarations. -/
def declStmtReject (s : Stmt) : Bool :=
  match s with
  | .declS d _ _ => refToTmpVar d
  | .groupDeclS _ => true
  | _ => false

/-- Guard check (lines 545-556): `E` is `!v` for a control variable `v` of
the pass (`__cvise_printed...` / `__cvise_checked...`). -/
def lnotGuardReject (e : Expr) : Bool :=
  match e with
  | .unOp .lnot sub _ =>
    match sub.ignoreParenCasts with
    | .declRef d _ =>
      strStarts PrintedVarNamePrefix d.name || strStarts CheckedVarNamePrefix d.name
    | _ => false
  | _ => false

/-- Guard check (lines 558-573): `E` is `tmp != literal` with `tmp` a
capture temporary, inside an `if` statement. -/
def neGuardReject (e : Expr) (s : Stmt) : Bool :=
  match e with
  | .binOp .neOp l r _ =>
    let lhs := l.ignoreParenCasts
    let rhs := r.ignoreParenCasts
    let isLit := rhs.stmtClass = .integerLiteralC || rhs.stmtClass = .floatingLiteralC
    (match lhs with
     | .declRef d _ =>
       isLit && strStarts TmpVarNamePrefix d.name && decide (s.stmtClass = StmtClass.ifC)
     | _ => false)
  | _ => false

/-- Model of `CallExpr::getDirectCallee` on a call node: the declaration
the callee expression refers to after stripping, when it is a function. -/
def directCallee : Expr → Option Decl
| .call f _ _ _ =>
  (match f.ignoreParenImpCasts with
   | .declRef d _ => if d.isVar then none else some d
   | _ => none)
| _ => none

/-- Model of `dyn_cast<CallExpr>(S)` followed by `getDirectCallee`:
succeeds only when the statement is itself a call expression. -/
def stmtAsCallCallee : Stmt → Option Decl
| .exprS e =>
  (match e with
   | .call .. => directCallee e
   | _ => none)
| _ => none

/-- Name-reference check (lines 575-585): reject references to the pass's
reserved temporaries, and name-references inside a statement that is a
direct call to a function literally named `printf`. -/
def declRefReject (e : Expr) (s : Stmt) : Bool :=
  match e with
  | .declRef d _ =>
    refToTmpVar d ||
    (match stmtAsCallCallee s with
     | some fd => decide (fd.name = "printf")
     | none => false)
  | _ => false

/-- Model of `ExpressionDetector::isValidExpr` (lines 516-648), with the
statement passed together with its key and the candidate node together
with its reference.  Returns the verdict and the updated cache state. -/
def isValidExpr (st : DetState) (key : StmtKey) (s : Stmt) (eref : NodeRef)
    (e : Expr) : Bool × DetState :=
  if isLoopClass s.stmtClass then (false, st)
  else if selfReplaceCheck s eref then (false, st)
  else if declStmtReject s then (false, st)
  else if lnotGuardReject e then (false, st)
  else if neGuardReject e s then (false, st)
  else if declRefReject e s then (false, st)
  else
    match alookup st.invalidExprsInUOBO key with
    | none =>
      let inv := computeUOBO s
      let st1 := { st with invalidExprsInUOBO := aupdate st.invalidExprsInUOBO key inv }
      if inv.contains eref then (false, st1) else uniqueStage st1 key s e
    | some inv =>
      if inv.contains eref then (false, st) else uniqueStage st key s e

/-- A function definition of the translation unit.  `inIncludedFile`
models `isInIncludedFile(FD)`; the list only holds definitions with a
body (declarations without a body are skipped by the collection visitor
either way). -/
structure FuncDef where
  name : String
  inIncludedFile : Bool
  body : List Stmt
deriving DecidableEq, Repr

/-- One parsed translation unit.  `isCXX` models
`TransformationManager::isCXXLangOpt()`. -/
structure Program where
  isCXX : Bool
  funcs : List FuncDef
deriving DecidableEq, Repr

/-- Traversal state plus the ghost list `acc` of all accepted candidates
in traversal order; `acc` is instrumentation only — no source state reads
it, and `st` evolves exactly as the pass's member variables do. -/
structure RunState where
  st : DetState
  acc : List Triple
deriving DecidableEq, Repr

/-- Candidate expression classes (the `switch` of
`ExprDetectorStmtVisitor::VisitExpr`, lines 269-279).  Note that compound
assignments form their own class and are not candidates. -/
def candidateClass (sc : StmtClass) : Bool :=
  sc = .arraySubscriptC || sc = .binaryOperatorC || sc = .callC ||
  sc = .declRefC || sc = .memberC || sc = .unaryOperatorC

/-- Model of `ExprDetectorStmtVisitor::VisitExpr` (lines 264-297) on one
node of the current statement: class filter, integer/floating type filter,
validity filter; on acceptance bump `ValidInstanceNum` and latch the
triple when it reaches the requested `counter`.  The `isInIncludedFile(E)`
test is subsumed by the function-level skip (a function of the main file
has its body in the main file in this model). -/
def visitExpr (counter fIdx sIdx : Nat) (s : Stmt) (rs : RunState)
    (node : NodeRef × Expr) : RunState :=
  if !candidateClass node.2.stmtClass then rs
  else if !(node.2.qualType.isIntegerType || node.2.qualType.isFloatingType) then rs
  else
    let r := isValidExpr rs.st (fIdx, sIdx) s node.1 node.2
    if r.1 then
      let n := r.2.validInstanceNum + 1
      let t : Triple := ⟨fIdx, sIdx, node.1, s, node.2⟩
      { st := { r.2 with
                validInstanceNum := n,
                theTriple := if n = counter then some t else r.2.theTriple },
        acc := rs.acc ++ [t] }
    else { rs with st := r.2 }

/-- Visit every expression node of one statement, in pre-order. -/
def processStmt (counter fIdx : Nat) (rs : RunState) (is : Nat × Stmt) :
    RunState :=
  is.2.allNodes.foldl (visitExpr counter fIdx is.1 is.2) rs

/-- Model of `ExpressionDetector::addOneTempVar` (lines 386-394). -/
def addOneTempVar (st : DetState) (d : Decl) (declInit : Option Expr) :
    DetState :=
  if d.isVar && strStarts TmpVarNamePrefix d.name then
    match declInit with
    | some i =>
      { st with processedExprs := aupdate st.processedExprs d.uid i.ignoreParenImpCasts }
    | none => st
  else st

/-- Model of `ExprDetectorTempVarVisitor` (lines 188-209) over a function
body: record the initializer of every declared capture temporary. -/
def tempVarPass (body : List Stmt) (st : DetState) : DetState :=
  body.foldl
    (fun st s =>
      match s with
      | .declS d _ declInit => addOneTempVar st d declInit
      | .groupDeclS ds => ds.foldl (fun st dti => addOneTempVar st dti.1 dti.2.2) st
      | _ => st) st

/-- Model of `ExprDetectorCollectionVisitor::VisitFunctionDecl`
(lines 240-262) for one function: skip functions of included files, run
the temp-var visitor, visit every statement, then clear `UniqueExprs` and
`ProcessedExprs`.  (The `HFInfo` bookkeeping of lines 242-246 only feeds
the rewrite side and is modelled by `runPass`'s `needFuncDecl` input.) -/
def processFunc (counter : Nat) (rs : RunState) (ifd : Nat × FuncDef) :
    RunState :=
  let (fIdx, fd) := ifd
  if fd.inIncludedFile then rs
  else
    let rs1 : RunState := { rs with st := tempVarPass fd.body rs.st }
    let rs2 := fd.body.enum.foldl (processStmt counter fIdx) rs1
    { rs2 with st := { rs2.st with uniqueExprs := [], processedExprs := [] } }

/-- Initial pass state (all caches empty, counter zero, nothing latched). -/
def initState : DetState := ⟨[], [], [], [], 0, none⟩

/-- Initial run state. -/
def initRun : RunState := ⟨initState, []⟩

/-- Model of `ExpressionDetector::HandleTopLevelDecl` (lines 329-341) over
the whole translation unit: C++ programs are skipped with
`ValidInstanceNum = 0`; otherwise every function is traversed in
declaration order. -/
def runCollection (counter : Nat) (p : Program) : RunState :=
  if p.isCXX then initRun
  else p.funcs.enum.foldl (processFunc counter) initRun

/-- The accepted candidates of a program in traversal order (the ghost
list of a run; the requested ordinal does not influence it, which is
proved below). -/
def acceptedCandidates (p : Program) : List Triple :=
  (runCollection 0 p).acc

/-- Prefix runs: the state after the first `k` functions have been walked,
i.e. the state at the start of function `k` (0-based). -/
def runPrefix (counter : Nat) (p : Program) (k : Nat) : RunState :=
  (p.funcs.enum.take k).foldl (processFunc counter) initRun

/-- Error conditions of a run: `TransMaxInstanceError` and (for the
`TransAssert`s of lines 355-357 and internal diagnostics) a fatal internal
error. -/
inductive TransErr
| maxInstance
| internalErr
deriving DecidableEq, Repr

/-- External configuration of one invocation. -/
structure Config where
  counter : Nat
  checkReference : Bool
  referenceValue : String
  doReplacement : Option String
  queryInstanceOnly : Bool
deriving DecidableEq, Repr

/-- Name of the reporting function (`HFInfo.FunctionName`, set by
`Initialize`, lines 299-315): `abort` in reference-check mode, `printf`
in print mode. -/
def reportFuncName (checkReference : Bool) : String :=
  if checkReference then "abort" else "printf"

/-- Forward declaration text (`HFInfo.FunctionDeclStr`). -/
def reportFuncDeclStr (checkReference : Bool) : String :=
  if checkReference then "void abort(void)" else "int printf(const char *format, ...)"

/-- Modelled from the spec: the external `RewriteHelper::getExprString`
re-rendering of an expression as source text (RewriteUtils is not under
src/); any injective-enough printer serves the claims. -/
def renderCType : CType → String
| .builtin k =>
  (match k with
   | .boolK => "_Bool" | .charU => "char" | .wcharU => "wchar_t"
   | .ucharK => "unsigned char" | .ushortK => "unsigned short"
   | .uintK => "unsigned int" | .charS => "char" | .scharK => "signed char"
   | .wcharS => "wchar_t" | .shortK => "short" | .intK => "int"
   | .char16K => "char16_t" | .char32K => "char32_t"
   | .ulongK => "unsigned long" | .longK => "long"
   | .ulongLongK => "unsigned long long" | .longLongK => "long long"
   | .floatK => "float" | .doubleK => "double" | .longDoubleK => "long double"
   | .int128K => "__int128")
| .enumTy _ => "enum"
| .pointer t => renderCType t ++ " *"
| .funcTy => "fn"
| .otherTy => "other"

/-- Spelling of a binary operator. -/
def binOpText : BinOpKind → String
| .add => "+" | .sub => "-" | .mul => "*" | .lt => "<" | .eqOp => "=="
| .neOp => "!=" | .landOp => "&&" | .lorOp => "||" | .comma => ","
| .assign => "=" | .addAssign => "+=" | .subAssign => "-="

/-- Spelling of a unary operator. -/
def unOpText : UnOpKind → String
| .postInc => "++" | .postDec => "--" | .preInc => "++" | .preDec => "--"
| .addrOf => "&" | .deref => "*" | .lnot => "!" | .neg => "-" | .plusOp => "+"

mutual
/-- Modelled from the spec: textual re-rendering of an expression (the
external `RewriteHelper::getExprString`). -/
def renderExpr : Expr → String
| .arraySub b i _ => renderExpr b ++ "[" ++ renderExpr i ++ "]"
| .binOp op l r _ => renderExpr l ++ " " ++ binOpText op ++ " " ++ renderExpr r
| .call f args _ _ => renderExpr f ++ "(" ++ renderArgs args ++ ")"
| .declRef d _ => d.name
| .member b m _ => renderExpr b ++ "." ++ m.name
| .unOp op s _ => unOpText op ++ renderExpr s
| .paren s => "(" ++ renderExpr s ++ ")"
| .implCast s _ => renderExpr s
| .cCast w s => "(" ++ renderCType w ++ ")" ++ renderExpr s
| .intLit _ v _ => Nat.repr v
| .floatLit b _ => "flit" ++ Nat.repr b
| .charLit v _ => "clit" ++ Nat.repr v
| .strLit _ _ => "slit"
| .condOp c t e _ =>
  renderExpr c ++ " ? " ++ renderExpr t ++ " : " ++ renderExpr e

/-- Comma-separated rendering of call arguments. -/
def renderArgs : ExprList → String
| .nil => ""
| .cons a .nil => renderExpr a
| .cons a as => renderExpr a ++ ", " ++ renderArgs as
end

/-- The edit `doRewrite` requests: optional forward declaration inserted
at the top of the file, text inserted before the latched statement, and
the replacement of the latched expression by the temporary's name with the
parenthesization flag passed to
`RewriteHelper::addStringBeforeStmtAndReplaceExpr`. -/
structure EmitOut where
  funcDeclText : Option String
  insertedText : String
  replacedWith : String
  needParen : Bool
deriving DecidableEq, Repr

/-- Model of `ExpressionDetector::doRewrite` (lines 697-738).
`needFuncDecl` is the externally decided `shouldAddFunctionDecl` result;
`tmpMax`/`ctrlMax` are the `getMaxNamePostfix` results of the two
external name queries over the latched function. -/
def doRewrite (cfg : Config) (needFuncDecl : Bool) (tmpMax ctrlMax : Nat)
    (t : Triple) : EmitOut :=
  let exprStr := renderExpr t.expr
  let tyStr := renderCType t.expr.qualType
  let tmpVarName := TmpVarNamePrefix ++ Nat.repr (tmpMax + 1)
  let controlVarName :=
    (if cfg.checkReference then CheckedVarNamePrefix else PrintedVarNamePrefix) ++
    Nat.repr (ctrlMax + 1)
  let s1 := tyStr ++ " " ++ tmpVarName ++ " = " ++ exprStr ++ ";\n"
  let s2 := "static int " ++ controlVarName ++ " = 0;\n"
  let s3 := "if (" ++ controlVarName ++ " == __CVISE_INSTANCE_NUMBER) \x7b\n"
  let s4 :=
    if cfg.checkReference then
      "  if (" ++ tmpVarName ++ " != " ++ cfg.referenceValue ++ ") " ++
      reportFuncName true ++ "();\n"
    else
      "  " ++ reportFuncName false ++ "(\"cvise_value(%" ++
      (getFormatStr t.expr.qualType.desugarAsBuiltin).getD "" ++ ")\\n\", " ++
      tmpVarName ++ ");\n"
  let s5 := "\x7d\n" ++ "++" ++ controlVarName ++ ";"
  { funcDeclText := if needFuncDecl then some (reportFuncDeclStr cfg.checkReference ++ ";\n") else none,
    insertedText := s1 ++ s2 ++ s3 ++ s4 ++ s5,
    replacedWith := tmpVarName,
    needParen := t.stmt.stmtClass != StmtClass.declStmtC }

/-- The requested edits. -/
inductive Edits
| plainReplace (t : Triple) (txt : String)
| instrument (t : Triple) (out : EmitOut)
deriving DecidableEq, Repr

/-- Outcome of one invocation. -/
structure PassResult where
  transError : Option TransErr
  edits : Option Edits
deriving DecidableEq, Repr

/-- Model of `ExpressionDetector::HandleTranslationUnit` (lines 343-371)
after the collection walk: in query mode nothing happens; a requested
ordinal larger than the number of accepted candidates reports
`TransMaxInstanceError` and requests no edit; otherwise the latched triple
must exist (`TransAssert`) and is either plainly replaced
(`DoReplacement`) or instrumented via `doRewrite`. -/
def runPass (cfg : Config) (needFuncDecl : Bool) (tmpMax ctrlMax : Nat)
    (p : Program) : PassResult :=
  let rs := runCollection cfg.counter p
  if cfg.queryInstanceOnly then ⟨none, none⟩
  else if decide (cfg.counter > rs.st.validInstanceNum) then ⟨some .maxInstance, none⟩
  else
    match rs.st.theTriple with
    | none => ⟨some .internalErr, none⟩
    | some t =>
      match cfg.doReplacement with
      | some txt => ⟨none, some (.plainReplace t txt)⟩
      | none => ⟨none, some (.instrument t (doRewrite cfg needFuncDecl tmpMax ctrlMax t))⟩

/-- Child-list comparison at its canonical fuel (a reading of
`isIdentListFuel`, used only to state lemmas). -/
def isIdenticalList (l1 l2 : ExprList) : Bool :=
  isIdentListFuel (l1.size + l2.size + 1) l1 l2

mutual
/-- An expression all of whose sub-expressions (after stripping) belong
to the classes the oracle's `switch` equips with an equality rule; the
`default:` classes (modelled by `condOp`) are excluded. -/
def idSupported : Expr → Bool
| .arraySub b i _ => idSupported b && idSupported i
| .binOp _ l r _ => idSupported l && idSupported r
| .call f args _ _ => idSupported f && idSupportedList args
| .declRef _ _ => true
| .member b _ _ => idSupported b
| .unOp _ s _ => idSupported s
| .paren s => idSupported s
| .implCast s _ => idSupported s
| .cCast _ s => idSupported s
| .intLit _ _ _ => true
| .floatLit _ _ => true
| .charLit _ _ => true
| .strLit _ _ => true
| .condOp _ _ _ _ => false

/-- Supportedness of all members of an argument list. -/
def idSupportedList : ExprList → Bool
| .nil => true
| .cons a as => idSupported a && idSupportedList as
end

/-- Joint traversal invariant for requested ordinal `c`: the ordinal
counter equals the number of candidates accepted so far, and the latched
triple is exactly the `c`-th accepted candidate (when it exists). -/
def ordinalInv (c : Nat) (rs : RunState) : Prop :=
  rs.st.validInstanceNum = rs.acc.length ∧ rs.st.theTriple = rs.acc[c - 1]?

/-- Relation between the traversal states of two runs that differ only in
the requested ordinal: accepted lists equal, states equal except possibly
the latched triple. -/
def runRel (rs rs' : RunState) : Prop :=
  rs.acc = rs'.acc ∧ rs'.st = { rs.st with theTriple := rs'.st.theTriple }

/-- Once the triple is latched the requested ordinal is at most the
counter; under that invariant no later step rewrites the triple, and the
counter never decreases. -/
def latchInv (c : Nat) (t : Triple) (rs : RunState) : Prop :=
  rs.st.theTriple = some t ∧ c ≤ rs.st.validInstanceNum

/-! ### Concrete example programs

Small translation units used to evaluate the embedding on closed inputs.
Node references follow the position scheme: `(root index, path)` inside a
statement, statements indexed inside their function, functions inside the
unit. -/

/-- The C `int` type. -/
def intTy : CType := .builtin .intK

/-- A complete unscoped C enum type: it passes `isIntegerType`, yet
`dyn_cast<BuiltinType>` on it fails. -/
def enumTyC : CType := .enumTy true

/-- The variable `x`. -/
def xD : Decl := ⟨1, "x", true⟩

/-- The variable `y`. -/
def yD : Decl := ⟨2, "y", true⟩

/-- The variable `a`. -/
def aD : Decl := ⟨3, "a", true⟩

/-- A capture temporary left behind by an earlier instantiation of the
pass. -/
def tmp1D : Decl := ⟨4, "__cvise_expr_tmp_1", true⟩

/-- The function `printf`. -/
def printfD : Decl := ⟨5, "printf", false⟩

/-- The function `abort`. -/
def abortD : Decl := ⟨6, "abort", false⟩

/-- The statement `x++;`. -/
def sXpp : Stmt := .exprS (.unOp .postInc (.declRef xD intTy) intTy)

/-- A one-function C program whose body is `x++;`. -/
def pXpp : Program := ⟨false, [⟨"f", false, [sXpp]⟩]⟩

/-- The expression `abort(a)` (callee reference decays through an implicit
cast, as clang builds it; the call itself is int-typed here so that the
class and type filters pass on it). -/
def callAbort : Expr :=
  .call (.implCast (.declRef abortD CType.funcTy) (.pointer CType.funcTy))
    (.cons (.declRef aD intTy) .nil) false intTy

/-- The statement `abort(a);`. -/
def sAbort : Stmt := .exprS callAbort

/-- A one-function C program whose body is `abort(a);`. -/
def p4 : Program := ⟨false, [⟨"f", false, [sAbort]⟩]⟩

/-- The candidate the pass latches on `p4` at ordinal 1: the argument `a`
of the `abort` call. -/
def tAbort : Triple := ⟨0, 0, (0, [1]), sAbort, .declRef aD intTy⟩

/-- The expression `printf(a)`. -/
def callPrintf : Expr :=
  .call (.implCast (.declRef printfD CType.funcTy) (.pointer CType.funcTy))
    (.cons (.declRef aD intTy) .nil) false intTy

/-- The statement `printf(a);`. -/
def sPrintf : Stmt := .exprS callPrintf

/-- The expression `y[1]`. -/
def y1 : Expr :=
  .arraySub (.implCast (.declRef yD (.pointer intTy)) (.pointer intTy))
    (.intLit 32 1 intTy) intTy

/-- The declaration `int __cvise_expr_tmp_1 = y[1];`. -/
def s0 : Stmt := .declS tmp1D intTy (some y1)

/-- The expression `__cvise_expr_tmp_1 + y[1]`. -/
def addE : Expr := .binOp .add (.implCast (.declRef tmp1D intTy) intTy) y1 intTy

/-- The statement `x = __cvise_expr_tmp_1 + y[1];`. -/
def sAsgn : Stmt := .exprS (.binOp .assign (.declRef xD intTy) addE intTy)

/-- A function body holding the previous two statements. -/
def p5body : List Stmt := [s0, sAsgn]

/-- The traversal state after walking both statements of `p5body` inside
one function — the state just before the end-of-function cache clearing
(requested ordinal 99 so nothing is latched). -/
def p5run : RunState :=
  p5body.enum.foldl (processStmt 99 0) ⟨tempVarPass p5body initState, []⟩

/-- The statement `x + y;`. -/
def sAdd : Stmt :=
  .exprS (.binOp .add (.declRef xD intTy) (.declRef yD intTy) intTy)

/-- A two-function C program: `f` holds `x + y;`, `g` holds `a;`. -/
def p2 : Program :=
  ⟨false, [⟨"f", false, [sAdd]⟩, ⟨"g", false, [.exprS (.declRef aD intTy)]⟩]⟩

/-- The first accepted candidate of `p2`: the name-reference `x`. -/
def t2x : Triple := ⟨0, 0, (0, [0]), sAdd, .declRef xD intTy⟩

/-- The statement `x + y;` with both operands of enum type (the sum itself
is int-typed, as C usual arithmetic conversions make it). -/
def sEnum : Stmt :=
  .exprS (.binOp .add (.declRef xD enumTyC) (.declRef yD enumTyC) intTy)

/-- A one-function C program whose body is `sEnum`. -/
def p10 : Program := ⟨false, [⟨"f", false, [sEnum]⟩]⟩

/-- The second accepted candidate of `p10`: the enum-typed `y`. -/
def t10 : Triple := ⟨0, 0, (0, [1]), sEnum, .declRef yD enumTyC⟩

/-- The conditional expression `x ? 1 : 2`: free of side effects, but its
class falls into the `default:` branches of the oracle. -/
def e0 : Expr :=
  .condOp (.declRef xD intTy) (.intLit 32 1 intTy) (.intLit 32 2 intTy) intTy

/-! ### The emitted instrumentation text as the spec describes it

Named components of the text the spec says `doRewrite` inserts, written
from the spec wording so the source-translated `doRewrite` can be compared
against them. -/

/-- Spec wording: a capture temporary of the expression static type,
initialized to the expression. -/
def specCaptureLine (tyStr tmpName exprStr : String) : String :=
  tyStr ++ " " ++ tmpName ++ " = " ++ exprStr ++ ";\n"

/-- Spec wording: a fresh static guard counter initialized to zero. -/
def specGuardDecl (ctlName : String) : String :=
  "static int " ++ ctlName ++ " = 0;\n"

/-- Spec wording: a block that calls the reporting/abort function only
when the guard counter equals the fire-on-instance number. -/
def specGuardBlock (cfg : Config) (tmpName ctlName fmt : String) : String :=
  "if (" ++ ctlName ++ " == __CVISE_INSTANCE_NUMBER) \x7b\n" ++
  (if cfg.checkReference then
    "  if (" ++ tmpName ++ " != " ++ cfg.referenceValue ++ ") " ++
      reportFuncName true ++ "();\n"
  else
    "  " ++ reportFuncName false ++ "(\"cvise_value(%" ++ fmt ++ ")\\n\", " ++
      tmpName ++ ");\n") ++
  "\x7d\n"

/-- Spec wording: an unconditional increment of the guard counter. -/
def specIncrement (ctlName : String) : String := "++" ++ ctlName ++ ";"

/-- The capture temporary name for a fresh postfix. -/
def specTmpVarName (tmpMax : Nat) : String :=
  TmpVarNamePrefix ++ Nat.repr (tmpMax + 1)

/-- The guard counter name for a fresh postfix (checked family in
reference-check mode, printed family in print mode). -/
def specCtrlVarName (cfg : Config) (ctrlMax : Nat) : String :=
  (if cfg.checkReference then CheckedVarNamePrefix else PrintedVarNamePrefix) ++
    Nat.repr (ctrlMax + 1)

/-! ### Infrastructure lemmas -/

theorem foldl_inv {α β : Type} {P : α → Prop} (f : α → β → α)
    (h : ∀ a b, P a → P (f a b)) :
    ∀ (l : List β) (a : α), P a → P (l.foldl f a) := by
  intro l
  induction l with
  | nil => intro a ha; exact ha
  | cons b bs ih => intro a ha; exact ih (f a b) (h a b ha)

theorem foldl_rel {α β : Type} {R : α → α → Prop} (f g : α → β → α)
    (h : ∀ a a' b, R a a' → R (f a b) (g a' b)) :
    ∀ (l : List β) (a a' : α), R a a' → R (l.foldl f a) (l.foldl g a') := by
  intro l
  induction l with
  | nil => intro a a' ha; exact ha
  | cons b bs ih => intro a a' ha; exact ih (f a b) (g a' b) (h a a' b ha)

theorem alookup_aupdate_self {κ α : Type} [DecidableEq κ]
    (l : List (κ × α)) (k : κ) (v : α) : alookup (aupdate l k v) k = some v := by
  induction l with
  | nil => simp [alookup, aupdate]
  | cons kv rest ih =>
    by_cases h : kv.1 = k
    · simp [alookup, aupdate, h]
    · simp [alookup, aupdate, h, ih]

theorem alookup_aupdate_ne {κ α : Type} [DecidableEq κ]
    (l : List (κ × α)) (k k' : κ) (v : α) (h : k ≠ k') :
    alookup (aupdate l k v) k' = alookup l k' := by
  induction l with
  | nil => simp [alookup, aupdate, h]
  | cons kv rest ih =>
    by_cases h2 : kv.1 = k
    · simp [alookup, aupdate, h2, h]
    · simp only [aupdate, if_neg h2, alookup]
      by_cases h3 : kv.1 = k'
      · simp [h3]
      · simp [h3, ih]

theorem alookup_eq_none {κ α : Type} [DecidableEq κ]
    (l : List (κ × α)) (k : κ) (h : ∀ kv ∈ l, kv.1 ≠ k) :
    alookup l k = none := by
  induction l with
  | nil => rfl
  | cons kv rest ih =>
    simp only [alookup, if_neg (h kv (by simp))]
    exact ih (fun kv2 h2 => h kv2 (by simp [h2]))

theorem mem_aupdate {κ α : Type} [DecidableEq κ]
    (l : List (κ × α)) (k : κ) (v : α) (kv : κ × α)
    (h : kv ∈ aupdate l k v) : kv ∈ l ∨ kv.1 = k := by
  induction l with
  | nil => simp [aupdate] at h; simp [h]
  | cons kv2 rest ih =>
    by_cases h2 : kv2.1 = k
    · simp only [aupdate, if_pos h2] at h
      rcases List.mem_cons.mp h with h3 | h3
      · right; simp [h3]
      · left; exact List.mem_cons_of_mem _ h3
    · simp only [aupdate, if_neg h2] at h
      rcases List.mem_cons.mp h with h3 | h3
      · left; exact h3 ▸ List.mem_cons_self _ _
      · rcases ih h3 with h4 | h4
        · left; exact List.mem_cons_of_mem _ h4
        · right; exact h4

/-! ### Frame lemmas for the validity filter -/

/-- The temporary-variable stage either leaves the state alone or only
installs the statement's temporary list into the cache. -/
theorem tmpVarStage_state (st : DetState) (key : StmtKey) (s : Stmt) (e : Expr) :
    (tmpVarStage st key s e).2 = st ∨
    (tmpVarStage st key s e).2 =
      { st with tmpVarsInStmt := aupdate st.tmpVarsInStmt key (collectTmpVars s) } := by
  simp only [tmpVarStage]
  repeat' split
  all_goals first | exact Or.inl rfl | exact Or.inr rfl

/-- The duplicate-suppression stage changes only the unique-expression
list and (through the next stage) the temporary cache; on acceptance the
unique-expression list has certainly gained `e`. -/
theorem uniqueStage_state (st : DetState) (key : StmtKey) (s : Stmt) (e : Expr) :
    ∃ uq tv,
      (uniqueStage st key s e).2 =
        { st with uniqueExprs := uq, tmpVarsInStmt := tv } ∧
      (uq = st.uniqueExprs ∨
        uq = aupdate st.uniqueExprs key ((alookup st.uniqueExprs key).getD [] ++ [e])) ∧
      (tv = st.tmpVarsInStmt ∨ tv = aupdate st.tmpVarsInStmt key (collectTmpVars s)) ∧
      ((uniqueStage st key s e).1 = true →
        uq = aupdate st.uniqueExprs key ((alookup st.uniqueExprs key).getD [] ++ [e])) := by
  cases st with
  | mk u pr iv tv n tr =>
    simp only [uniqueStage]
    split
    · exact ⟨u, tv, rfl, Or.inl rfl, Or.inl rfl, fun h => Bool.noConfusion h⟩
    · rcases tmpVarStage_state
        { uniqueExprs := aupdate u key ((alookup u key).getD [] ++ [e]),
          processedExprs := pr, invalidExprsInUOBO := iv, tmpVarsInStmt := tv,
          validInstanceNum := n, theTriple := tr } key s e with h | h
      · exact ⟨_, tv, h, Or.inr rfl, Or.inl rfl, fun _ => rfl⟩
      · exact ⟨_, _, h, Or.inr rfl, Or.inr rfl, fun _ => rfl⟩

/-- Complete description of the state effect of the validity filter: the
ordinal counter, the latched triple and the temporary registry are
untouched, and each per-statement cache is either unchanged or updated at
the current statement's key; on acceptance the unique-expression list has
gained `e`. -/
theorem isValidExpr_state (st : DetState) (key : StmtKey) (s : Stmt)
    (eref : NodeRef) (e : Expr) :
    ∃ iv uq tv,
      (isValidExpr st key s eref e).2 =
        { st with invalidExprsInUOBO := iv, uniqueExprs := uq, tmpVarsInStmt := tv } ∧
      (iv = st.invalidExprsInUOBO ∨
        iv = aupdate st.invalidExprsInUOBO key (computeUOBO s)) ∧
      (uq = st.uniqueExprs ∨
        uq = aupdate st.uniqueExprs key ((alookup st.uniqueExprs key).getD [] ++ [e])) ∧
      (tv = st.tmpVarsInStmt ∨ tv = aupdate st.tmpVarsInStmt key (collectTmpVars s)) ∧
      ((isValidExpr st key s eref e).1 = true →
        uq = aupdate st.uniqueExprs key ((alookup st.uniqueExprs key).getD [] ++ [e])) := by
  cases st with
  | mk u pr iv tv n tr =>
    simp only [isValidExpr]
    repeat' split
    all_goals
      first
      | exact ⟨iv, u, tv, rfl, Or.inl rfl, Or.inl rfl, Or.inl rfl,
          fun h => Bool.noConfusion h⟩
      | exact ⟨aupdate iv key (computeUOBO s), u, tv, rfl, Or.inr rfl, Or.inl rfl,
          Or.inl rfl, fun h => Bool.noConfusion h⟩
      | (rcases uniqueStage_state
          { uniqueExprs := u, processedExprs := pr, invalidExprsInUOBO := iv,
            tmpVarsInStmt := tv, validInstanceNum := n, theTriple := tr } key s e with
          ⟨uq2, tv2, hM, h1, h2, h3⟩
         exact ⟨iv, uq2, tv2, hM, Or.inl rfl, h1, h2, h3⟩)
      | (rcases uniqueStage_state
          { uniqueExprs := u, processedExprs := pr,
            invalidExprsInUOBO := aupdate iv key (computeUOBO s), tmpVarsInStmt := tv,
            validInstanceNum := n, theTriple := tr } key s e with
          ⟨uq2, tv2, hM, h1, h2, h3⟩
         exact ⟨aupdate iv key (computeUOBO s), uq2, tv2, hM, Or.inr rfl, h1, h2, h3⟩)

/-- The validity filter never changes the ordinal counter, the latched
triple, or the temporary registry: it only populates the per-statement
caches. -/
theorem isValidExpr_frame (st : DetState) (key : StmtKey) (s : Stmt)
    (eref : NodeRef) (e : Expr) :
    (isValidExpr st key s eref e).2.validInstanceNum = st.validInstanceNum ∧
    (isValidExpr st key s eref e).2.theTriple = st.theTriple ∧
    (isValidExpr st key s eref e).2.processedExprs = st.processedExprs := by
  rcases isValidExpr_state st key s eref e with ⟨iv2, uq2, tv2, hM, _⟩
  rw [hM]
  exact ⟨rfl, rfl, rfl⟩

/-- On acceptance, the unique-expression list of the statement has gained
exactly the candidate `e` at its end. -/
theorem isValidExpr_accept_push (st : DetState) (key : StmtKey) (s : Stmt)
    (eref : NodeRef) (e : Expr)
    (h : (isValidExpr st key s eref e).1 = true) :
    alookup (isValidExpr st key s eref e).2.uniqueExprs key =
      some ((alookup st.uniqueExprs key).getD [] ++ [e]) := by
  rcases isValidExpr_state st key s eref e with ⟨iv2, uq2, tv2, hM, _, _, _, hAcc⟩
  rw [hM]
  show alookup uq2 key = _
  rw [hAcc h]
  exact alookup_aupdate_self _ _ _

/-- The temporary-variable stage commutes with changing the latched
triple. -/
theorem tmpVarStage_triple_congr (st : DetState) (key : StmtKey) (s : Stmt)
    (e : Expr) (tr : Option Triple) :
    tmpVarStage { st with theTriple := tr } key s e =
      ((tmpVarStage st key s e).1,
        { (tmpVarStage st key s e).2 with theTriple := tr }) := by
  cases st
  simp only [tmpVarStage]
  repeat' split
  all_goals simp_all

/-- The duplicate-suppression stage commutes with changing the latched
triple. -/
theorem uniqueStage_triple_congr (st : DetState) (key : StmtKey) (s : Stmt)
    (e : Expr) (tr : Option Triple) :
    uniqueStage { st with theTriple := tr } key s e =
      ((uniqueStage st key s e).1,
        { (uniqueStage st key s e).2 with theTriple := tr }) := by
  cases st with
  | mk u pr iv tv n tr0 =>
    simp only [uniqueStage]
    split
    · rfl
    · exact tmpVarStage_triple_congr
        { uniqueExprs := aupdate u key ((alookup u key).getD [] ++ [e]),
          processedExprs := pr, invalidExprsInUOBO := iv, tmpVarsInStmt := tv,
          validInstanceNum := n, theTriple := tr0 } key s e tr

/-- The validity filter reads and writes no state through the latched
triple: changing that field commutes with the filter. -/
theorem isValidExpr_triple_congr (st : DetState) (key : StmtKey) (s : Stmt)
    (eref : NodeRef) (e : Expr) (tr : Option Triple) :
    isValidExpr { st with theTriple := tr } key s eref e =
      ((isValidExpr st key s eref e).1,
        { (isValidExpr st key s eref e).2 with theTriple := tr }) := by
  cases st with
  | mk u pr iv tv n tr0 =>
    simp only [isValidExpr]
    repeat' split
    all_goals
      first
      | rfl
      | exact uniqueStage_triple_congr
          { uniqueExprs := u, processedExprs := pr, invalidExprsInUOBO := iv,
            tmpVarsInStmt := tv, validInstanceNum := n, theTriple := tr0 } key s e tr
      | exact uniqueStage_triple_congr
          { uniqueExprs := u, processedExprs := pr,
            invalidExprsInUOBO := aupdate iv key (computeUOBO s), tmpVarsInStmt := tv,
            validInstanceNum := n, theTriple := tr0 } key s e tr

/-! ### Run-level invariants -/

theorem visitExpr_ordinalInv (c fIdx sIdx : Nat) (s : Stmt)
    (rs : RunState) (node : NodeRef × Expr) (hc : 1 ≤ c)
    (h : ordinalInv c rs) : ordinalInv c (visitExpr c fIdx sIdx s rs node) := by
  obtain ⟨h1, h2⟩ := h
  obtain ⟨hN, hT, _⟩ := isValidExpr_frame rs.st (fIdx, sIdx) s node.1 node.2
  simp only [visitExpr]
  split
  · exact ⟨h1, h2⟩
  split
  · exact ⟨h1, h2⟩
  split
  case isTrue hok =>
    refine ⟨by simp [hN, h1], ?_⟩
    show (if (isValidExpr rs.st (fIdx, sIdx) s node.1 node.2).2.validInstanceNum + 1 = c
          then some ⟨fIdx, sIdx, node.1, s, node.2⟩
          else (isValidExpr rs.st (fIdx, sIdx) s node.1 node.2).2.theTriple) =
        (rs.acc ++ [⟨fIdx, sIdx, node.1, s, node.2⟩])[c - 1]?
    rw [hN, hT, h1]
    split
    case isTrue hEq =>
      have hLen : c - 1 = rs.acc.length := by omega
      rw [hLen, List.getElem?_concat_length]
    case isFalse hNe =>
      rw [h2]
      rcases Nat.lt_or_ge (c - 1) rs.acc.length with hlt | hge
      · rw [List.getElem?_append_left hlt]
      · have hgt : rs.acc.length < c - 1 := by omega
        rw [List.getElem?_eq_none (by omega), List.getElem?_eq_none (by simp; omega)]
  case isFalse hok =>
    exact ⟨by simpa [hN] using h1, by simpa [hT] using h2⟩

theorem processStmt_ordinalInv (c fIdx : Nat) (rs : RunState) (is : Nat × Stmt)
    (hc : 1 ≤ c) (h : ordinalInv c rs) :
    ordinalInv c (processStmt c fIdx rs is) :=
  foldl_inv _ (fun a b hI => visitExpr_ordinalInv c fIdx is.1 is.2 a b hc hI) _ _ h

/-- `addOneTempVar` changes only the temporary registry. -/
theorem addOneTempVar_fields (st : DetState) (d : Decl) (declInit : Option Expr) :
    (addOneTempVar st d declInit).validInstanceNum = st.validInstanceNum ∧
    (addOneTempVar st d declInit).theTriple = st.theTriple ∧
    (addOneTempVar st d declInit).uniqueExprs = st.uniqueExprs ∧
    (addOneTempVar st d declInit).invalidExprsInUOBO = st.invalidExprsInUOBO ∧
    (addOneTempVar st d declInit).tmpVarsInStmt = st.tmpVarsInStmt := by
  simp only [addOneTempVar]
  repeat' split
  all_goals simp

/-- The temp-var visitor changes only the temporary registry. -/
theorem tempVarPass_fields (body : List Stmt) (st : DetState) :
    (tempVarPass body st).validInstanceNum = st.validInstanceNum ∧
    (tempVarPass body st).theTriple = st.theTriple ∧
    (tempVarPass body st).uniqueExprs = st.uniqueExprs ∧
    (tempVarPass body st).invalidExprsInUOBO = st.invalidExprsInUOBO ∧
    (tempVarPass body st).tmpVarsInStmt = st.tmpVarsInStmt := by
  refine foldl_inv (β := Stmt)
    (P := fun s2 => s2.validInstanceNum = st.validInstanceNum ∧
      s2.theTriple = st.theTriple ∧ s2.uniqueExprs = st.uniqueExprs ∧
      s2.invalidExprsInUOBO = st.invalidExprsInUOBO ∧
      s2.tmpVarsInStmt = st.tmpVarsInStmt)
    _ ?_ body st ⟨rfl, rfl, rfl, rfl, rfl⟩
  intro a b hI
  match b with
  | .declS d ty declInit =>
    obtain ⟨f1, f2, f3, f4, f5⟩ := addOneTempVar_fields a d declInit
    exact ⟨f1.trans hI.1, f2.trans hI.2.1, f3.trans hI.2.2.1,
      f4.trans hI.2.2.2.1, f5.trans hI.2.2.2.2⟩
  | .groupDeclS ds =>
    refine foldl_inv (β := Decl × CType × Option Expr)
      (P := fun s2 => s2.validInstanceNum = st.validInstanceNum ∧
        s2.theTriple = st.theTriple ∧ s2.uniqueExprs = st.uniqueExprs ∧
        s2.invalidExprsInUOBO = st.invalidExprsInUOBO ∧
        s2.tmpVarsInStmt = st.tmpVarsInStmt)
      _ ?_ ds a hI
    intro a2 dti hI2
    obtain ⟨f1, f2, f3, f4, f5⟩ := addOneTempVar_fields a2 dti.1 dti.2.2
    exact ⟨f1.trans hI2.1, f2.trans hI2.2.1, f3.trans hI2.2.2.1,
      f4.trans hI2.2.2.2.1, f5.trans hI2.2.2.2.2⟩
  | .exprS e => exact hI
  | .ifS cnd => exact hI
  | .forS a2 b2 c2 => exact hI
  | .whileS cnd => exact hI
  | .doS cnd => exact hI

theorem processFunc_ordinalInv (c : Nat) (rs : RunState) (ifd : Nat × FuncDef)
    (hc : 1 ≤ c) (h : ordinalInv c rs) :
    ordinalInv c (processFunc c rs ifd) := by
  obtain ⟨h1, h2⟩ := h
  simp only [processFunc]
  split
  · exact ⟨h1, h2⟩
  · obtain ⟨f1, f2, _⟩ := tempVarPass_fields ifd.2.body rs.st
    have hMid : ordinalInv c
        (ifd.2.body.enum.foldl (processStmt c ifd.1)
          { rs with st := tempVarPass ifd.2.body rs.st }) :=
      foldl_inv _ (fun a b hI => processStmt_ordinalInv c ifd.1 a b hc hI) _ _
        ⟨by rw [f1] at *; exact h1, by rw [f2] at *; exact h2⟩
    exact ⟨hMid.1, hMid.2⟩

/-- Every prefix run satisfies the ordinal invariant. -/
theorem runPrefix_ordinalInv (c : Nat) (p : Program) (k : Nat) (hc : 1 ≤ c) :
    ordinalInv c (runPrefix c p k) :=
  foldl_inv _ (fun a b hI => processFunc_ordinalInv c a b hc hI) _ _
    ⟨rfl, by simp [initRun, initState]⟩

/-- The full run satisfies the ordinal invariant. -/
theorem runCollection_ordinalInv (c : Nat) (p : Program) (hc : 1 ≤ c) :
    ordinalInv c (runCollection c p) := by
  simp only [runCollection]
  split
  · exact ⟨rfl, by simp [initRun, initState]⟩
  · exact foldl_inv _ (fun a b hI => processFunc_ordinalInv c a b hc hI) _ _
      ⟨rfl, by simp [initRun, initState]⟩

/-! ### The requested ordinal influences only the latched triple -/

theorem visitExpr_runRel (c c' fIdx sIdx : Nat) (s : Stmt)
    (rs rs' : RunState) (node : NodeRef × Expr) (h : runRel rs rs') :
    runRel (visitExpr c fIdx sIdx s rs node) (visitExpr c' fIdx sIdx s rs' node) := by
  obtain ⟨hAcc, hSt⟩ := h
  simp only [visitExpr]
  split
  · exact ⟨hAcc, hSt⟩
  split
  · exact ⟨hAcc, hSt⟩
  have hIV := isValidExpr_triple_congr rs.st (fIdx, sIdx) s node.1 node.2 rs'.st.theTriple
  rw [hSt, hIV]
  split
  case isTrue hok =>
    exact ⟨by rw [hAcc], rfl⟩
  case isFalse hok =>
    exact ⟨hAcc, rfl⟩

/-- One step of the temp-var visitor commutes with changing the latched
triple. -/
theorem tempVarStep_triple_congr (tr : Option Triple) (b : DetState) (x : Stmt) :
    (match x with
      | Stmt.declS d _ declInit => addOneTempVar { b with theTriple := tr } d declInit
      | Stmt.groupDeclS ds =>
        ds.foldl (fun (st : DetState) (dti : Decl × CType × Option Expr) =>
          addOneTempVar st dti.1 dti.2.2) { b with theTriple := tr }
      | _ => { b with theTriple := tr }) =
    { (match x with
        | Stmt.declS d _ declInit => addOneTempVar b d declInit
        | Stmt.groupDeclS ds =>
          ds.foldl (fun (st : DetState) (dti : Decl × CType × Option Expr) =>
            addOneTempVar st dti.1 dti.2.2) b
        | _ => b) with theTriple := tr } := by
  cases x with
  | declS d ty declInit =>
    cases b
    simp only [addOneTempVar]
    repeat' split
    all_goals rfl
  | groupDeclS ds =>
    refine foldl_rel
      (R := fun (a2 b2 : DetState) => a2 = { b2 with theTriple := tr }) _ _ ?_ ds _ _ rfl
    intro a2 b2 dti hR2
    subst hR2
    cases b2
    simp only [addOneTempVar]
    repeat' split
    all_goals rfl
  | exprS e => rfl
  | ifS cnd => rfl
  | forS a2 b2 c2 => rfl
  | whileS cnd => rfl
  | doS cnd => rfl

/-- The whole temp-var visitor commutes with changing the latched triple. -/
theorem tempVarPass_triple_congr (body : List Stmt) (st : DetState)
    (tr : Option Triple) :
    tempVarPass body { st with theTriple := tr } =
      { tempVarPass body st with theTriple := tr } := by
  refine foldl_rel
    (R := fun (a b : DetState) => a = { b with theTriple := tr }) _ _ ?_ body _ _ rfl
  intro a b x hR
  subst hR
  exact tempVarStep_triple_congr tr b x

theorem processFunc_runRel (c c' : Nat) (rs rs' : RunState) (ifd : Nat × FuncDef)
    (h : runRel rs rs') :
    runRel (processFunc c rs ifd) (processFunc c' rs' ifd) := by
  obtain ⟨hAcc, hSt⟩ := h
  simp only [processFunc]
  split
  · exact ⟨hAcc, hSt⟩
  have hTv : tempVarPass ifd.2.body rs'.st =
      { tempVarPass ifd.2.body rs.st with theTriple := rs'.st.theTriple } := by
    rw [hSt]
    exact tempVarPass_triple_congr ifd.2.body rs.st rs'.st.theTriple
  have hMid : runRel
      (ifd.2.body.enum.foldl (processStmt c ifd.1) { rs with st := tempVarPass ifd.2.body rs.st })
      (ifd.2.body.enum.foldl (processStmt c' ifd.1) { rs' with st := tempVarPass ifd.2.body rs'.st }) := by
    refine foldl_rel (R := runRel) _ _ ?_ _ _ _ ⟨hAcc, by rw [hTv]⟩
    intro a a' b hR
    exact foldl_rel (R := runRel) _ _
      (fun a2 a2' b2 hR2 => visitExpr_runRel c c' ifd.1 b.1 b.2 a2 a2' b2 hR2) _ _ _ hR
  obtain ⟨hAcc2, hSt2⟩ := hMid
  exact ⟨hAcc2, by rw [hSt2]⟩

/-- The accepted-candidate list and all cache state of a run do not depend
on the requested ordinal; only the latched triple does. -/
theorem runCollection_runRel (c c' : Nat) (p : Program) :
    runRel (runCollection c p) (runCollection c' p) := by
  simp only [runCollection]
  split
  · exact ⟨rfl, rfl⟩
  · exact foldl_rel (R := runRel) _ _
      (fun a a' b hR => processFunc_runRel c c' a a' b hR) _ _ _ ⟨rfl, rfl⟩

/-! ### Latch immutability -/

theorem visitExpr_latchInv (c fIdx sIdx : Nat) (s : Stmt) (t : Triple)
    (rs : RunState) (node : NodeRef × Expr)
    (h : latchInv c t rs) : latchInv c t (visitExpr c fIdx sIdx s rs node) := by
  obtain ⟨h1, h2⟩ := h
  obtain ⟨hN, hT, _⟩ := isValidExpr_frame rs.st (fIdx, sIdx) s node.1 node.2
  simp only [visitExpr]
  split
  · exact ⟨h1, h2⟩
  split
  · exact ⟨h1, h2⟩
  split
  case isTrue hok =>
    refine ⟨?_, ?_⟩
    · show (if (isValidExpr rs.st (fIdx, sIdx) s node.1 node.2).2.validInstanceNum + 1 = c
            then some (⟨fIdx, sIdx, node.1, s, node.2⟩ : Triple)
            else (isValidExpr rs.st (fIdx, sIdx) s node.1 node.2).2.theTriple) = some t
      rw [hN]
      split
      case isTrue hEq => omega
      case isFalse hNe => rw [hT]; exact h1
    · show c ≤ (isValidExpr rs.st (fIdx, sIdx) s node.1 node.2).2.validInstanceNum + 1
      rw [hN]; omega
  case isFalse hok =>
    exact ⟨by rw [hT]; exact h1, by rw [hN]; exact h2⟩

theorem processFunc_latchInv (c : Nat) (t : Triple) (rs : RunState)
    (ifd : Nat × FuncDef) (h : latchInv c t rs) :
    latchInv c t (processFunc c rs ifd) := by
  obtain ⟨h1, h2⟩ := h
  simp only [processFunc]
  split
  · exact ⟨h1, h2⟩
  · obtain ⟨f1, f2, _⟩ := tempVarPass_fields ifd.2.body rs.st
    have hMid : latchInv c t
        (ifd.2.body.enum.foldl (processStmt c ifd.1)
          { rs with st := tempVarPass ifd.2.body rs.st }) := by
      refine foldl_inv _ ?_ _ _ ⟨by rw [f2] at *; exact h1, by rw [f1] at *; exact h2⟩
      intro a b hI
      exact foldl_inv _
        (fun a2 b2 hI2 => visitExpr_latchInv c ifd.1 b.1 b.2 t a2 b2 hI2) _ _ hI
    exact ⟨hMid.1, hMid.2⟩

/-- A single visit never decreases the ordinal counter. -/
theorem visitExpr_counter_mono (c fIdx sIdx m : Nat) (s : Stmt)
    (rs : RunState) (node : NodeRef × Expr)
    (h : m ≤ rs.st.validInstanceNum) :
    m ≤ (visitExpr c fIdx sIdx s rs node).st.validInstanceNum := by
  obtain ⟨hN, _, _⟩ := isValidExpr_frame rs.st (fIdx, sIdx) s node.1 node.2
  simp only [visitExpr]
  split
  · exact h
  split
  · exact h
  split
  · show m ≤ (isValidExpr rs.st (fIdx, sIdx) s node.1 node.2).2.validInstanceNum + 1
    omega
  · show m ≤ (isValidExpr rs.st (fIdx, sIdx) s node.1 node.2).2.validInstanceNum
    omega

/-- Counter monotonicity: traversal never decreases the ordinal counter. -/
theorem processFunc_counter_mono (c m : Nat) (rs : RunState) (ifd : Nat × FuncDef)
    (h : m ≤ rs.st.validInstanceNum) :
    m ≤ (processFunc c rs ifd).st.validInstanceNum := by
  simp only [processFunc]
  split
  · exact h
  · obtain ⟨f1, _, _⟩ := tempVarPass_fields ifd.2.body rs.st
    refine foldl_inv (P := fun (rs2 : RunState) => m ≤ rs2.st.validInstanceNum) _ ?_ _ _
      (show m ≤ (tempVarPass ifd.2.body rs.st).validInstanceNum by rw [f1]; exact h)
    intro a b hI
    exact foldl_inv (P := fun (rs2 : RunState) => m ≤ rs2.st.validInstanceNum) _
      (fun a2 b2 hI2 => visitExpr_counter_mono c ifd.1 b.1 m b.2 a2 b2 hI2) _ _ hI

/-! ### Fuel adequacy for the structural-equality oracle -/

theorem Expr.size_pos : ∀ e : Expr, 1 ≤ e.size := by
  intro e
  cases e <;> simp only [Expr.size] <;> omega

theorem band_congr {a a' b b' : Bool} (h1 : a = a') (h2 : b = b') :
    (a && b) = (a' && b') := by rw [h1, h2]

set_option maxHeartbeats 4000000 in
/-- Adding one unit of fuel above the size bound does not change the
oracle's verdict (joint statement with the child-list comparison). -/
theorem identFuel_step (n : Nat) :
    (∀ e1 e2 : Expr, e1.size + e2.size ≤ n →
      isIdentFuel n e1 e2 = isIdentFuel (n + 1) e1 e2) ∧
    (∀ l1 l2 : ExprList, l1.size + l2.size + 1 ≤ n →
      isIdentListFuel n l1 l2 = isIdentListFuel (n + 1) l1 l2) := by
  induction n using Nat.strong_induction_on with
  | _ n ih =>
    cases n with
    | zero =>
      constructor
      · intro e1 e2 h
        have := Expr.size_pos e1
        omega
      · intro l1 l2 h
        omega
    | succ k =>
      constructor
      · intro e1 e2 h
        cases e1 <;> cases e2 <;>
          first
          | rfl
          | (refine (ih k (by omega)).1 _ _ ?_
             simp only [Expr.size, ExprList.size] at h ⊢ <;> omega)
          | (refine band_congr rfl
              (band_congr ((ih k (by omega)).1 _ _ ?_) ((ih k (by omega)).1 _ _ ?_)) <;>
             simp only [Expr.size, ExprList.size] at h ⊢ <;> omega)
          | (refine band_congr
              (band_congr rfl
                (band_congr ((ih k (by omega)).1 _ _ ?_) ((ih k (by omega)).1 _ _ ?_)))
              rfl <;>
             simp only [Expr.size, ExprList.size] at h ⊢ <;> omega)
          | (refine band_congr (band_congr rfl ((ih k (by omega)).1 _ _ ?_)) rfl <;>
             simp only [Expr.size, ExprList.size] at h ⊢ <;> omega)
          | (refine band_congr rfl
              (band_congr ((ih k (by omega)).1 _ _ ?_) ((ih k (by omega)).2 _ _ ?_)) <;>
             simp only [Expr.size, ExprList.size] at h ⊢ <;> omega)
      · intro l1 l2 h
        cases l1 with
        | nil => cases l2 <;> rfl
        | cons a as =>
          cases l2 with
          | nil => rfl
          | cons b bs =>
            have ha := Expr.size_pos a
            have hb := Expr.size_pos b
            refine band_congr ((ih k (by omega)).1 _ _ ?_) ((ih k (by omega)).2 _ _ ?_) <;>
              simp only [Expr.size, ExprList.size] at h ⊢ <;> omega

/-- Fuel irrelevance above the size bound. -/
theorem isIdentFuel_mono (n m : Nat) (e1 e2 : Expr)
    (h : e1.size + e2.size ≤ n) (hnm : n ≤ m) :
    isIdentFuel n e1 e2 = isIdentFuel m e1 e2 := by
  induction m, hnm using Nat.le_induction with
  | base => rfl
  | succ m hm ihm => rw [ihm, (identFuel_step m).1 e1 e2 (by omega)]

/-- Any sufficient fuel computes `isIdenticalExpr`. -/
theorem isIdentFuel_eq (n : Nat) (e1 e2 : Expr) (h : e1.size + e2.size ≤ n) :
    isIdentFuel n e1 e2 = isIdenticalExpr e1 e2 :=
  (isIdentFuel_mono (e1.size + e2.size) n e1 e2 le_rfl h).symm

/-- Fuel irrelevance for the list comparison. -/
theorem isIdentListFuel_mono (n m : Nat) (l1 l2 : ExprList)
    (h : l1.size + l2.size + 1 ≤ n) (hnm : n ≤ m) :
    isIdentListFuel n l1 l2 = isIdentListFuel m l1 l2 := by
  induction m, hnm using Nat.le_induction with
  | base => rfl
  | succ m hm ihm => rw [ihm, (identFuel_step m).2 l1 l2 (by omega)]

/-- Any sufficient fuel computes `isIdenticalList`. -/
theorem isIdentListFuel_eq (n : Nat) (l1 l2 : ExprList)
    (h : l1.size + l2.size + 1 ≤ n) :
    isIdentListFuel n l1 l2 = isIdenticalList l1 l2 :=
  (isIdentListFuel_mono (l1.size + l2.size + 1) n l1 l2 le_rfl h).symm

/-! ### Unfolding equations of the oracle -/

theorem identFuel_paren_left (n : Nat) (s e2 : Expr) :
    isIdentFuel (n + 1) (.paren s) e2 = isIdentFuel n s e2 := by
  cases e2 <;> rfl

theorem identFuel_implCast_left (n : Nat) (s : Expr) (ty : CType) (e2 : Expr) :
    isIdentFuel (n + 1) (.implCast s ty) e2 = isIdentFuel n s e2 := by
  cases e2 <;> rfl

/-- `isIdenticalExpr` ignores a top-level paren on the left. -/
theorem identical_paren_left (s e2 : Expr) :
    isIdenticalExpr (.paren s) e2 = isIdenticalExpr s e2 := by
  show isIdentFuel ((Expr.paren s).size + e2.size) _ _ = _
  rw [show (Expr.paren s).size + e2.size = (s.size + e2.size) + 1 from by
        simp only [Expr.size]; omega,
      identFuel_paren_left]
  rfl

/-- `isIdenticalExpr` ignores a top-level implicit cast on the left. -/
theorem identical_implCast_left (s : Expr) (ty : CType) (e2 : Expr) :
    isIdenticalExpr (.implCast s ty) e2 = isIdenticalExpr s e2 := by
  show isIdentFuel ((Expr.implCast s ty).size + e2.size) _ _ = _
  rw [show (Expr.implCast s ty).size + e2.size = (s.size + e2.size) + 1 from by
        simp only [Expr.size]; omega,
      identFuel_implCast_left]
  rfl

/-- `isIdenticalExpr` ignores a top-level paren on the right. -/
theorem identical_paren_right : ∀ e1 s : Expr,
    isIdenticalExpr e1 (.paren s) = isIdenticalExpr e1 s := by
  suffices H : ∀ N, ∀ e1 s : Expr, e1.size + s.size ≤ N →
      isIdenticalExpr e1 (.paren s) = isIdenticalExpr e1 s from
    fun e1 s => H (e1.size + s.size) e1 s le_rfl
  intro N
  induction N using Nat.strong_induction_on with
  | _ N ih =>
    intro e1 s h
    cases e1 <;>
      first
      | rfl
      | (rw [identical_paren_left, identical_paren_left]
         refine ih _ ?_ _ _ le_rfl
         simp only [Expr.size] at h
         omega)
      | (rw [identical_implCast_left, identical_implCast_left]
         refine ih _ ?_ _ _ le_rfl
         simp only [Expr.size] at h
         omega)

/-- `isIdenticalExpr` ignores a top-level implicit cast on the right. -/
theorem identical_implCast_right : ∀ (e1 s : Expr) (ty : CType),
    isIdenticalExpr e1 (.implCast s ty) = isIdenticalExpr e1 s := by
  suffices H : ∀ N, ∀ (e1 s : Expr) (ty : CType), e1.size + s.size ≤ N →
      isIdenticalExpr e1 (.implCast s ty) = isIdenticalExpr e1 s from
    fun e1 s ty => H (e1.size + s.size) e1 s ty le_rfl
  intro N
  induction N using Nat.strong_induction_on with
  | _ N ih =>
    intro e1 s ty h
    cases e1 <;>
      first
      | rfl
      | (rw [identical_paren_left, identical_paren_left]
         refine ih _ ?_ _ _ _ le_rfl
         simp only [Expr.size] at h
         omega)
      | (rw [identical_implCast_left, identical_implCast_left]
         refine ih _ ?_ _ _ _ le_rfl
         simp only [Expr.size] at h
         omega)

theorem identical_arraySub (b1 i1 : Expr) (t1 : CType) (b2 i2 : Expr) (t2 : CType) :
    isIdenticalExpr (.arraySub b1 i1 t1) (.arraySub b2 i2 t2) =
      (!(Expr.hasSideEffects (.arraySub b1 i1 t1) ||
         Expr.hasSideEffects (.arraySub b2 i2 t2)) &&
       (isIdenticalExpr b1 b2 && isIdenticalExpr i1 i2)) := by
  show isIdentFuel ((Expr.arraySub b1 i1 t1).size + (Expr.arraySub b2 i2 t2).size) _ _ = _
  rw [show (Expr.arraySub b1 i1 t1).size + (Expr.arraySub b2 i2 t2).size =
        (b1.size + i1.size + 1 + (b2.size + i2.size)) + 1 from by
        simp only [Expr.size]; omega]
  show (!(Expr.hasSideEffects (.arraySub b1 i1 t1) ||
          Expr.hasSideEffects (.arraySub b2 i2 t2)) &&
        (isIdentFuel (b1.size + i1.size + 1 + (b2.size + i2.size)) b1 b2 &&
         isIdentFuel (b1.size + i1.size + 1 + (b2.size + i2.size)) i1 i2)) = _
  rw [isIdentFuel_eq _ b1 b2 (by omega), isIdentFuel_eq _ i1 i2 (by omega)]

theorem identical_binOp (o1 : BinOpKind) (l1 r1 : Expr) (t1 : CType)
    (o2 : BinOpKind) (l2 r2 : Expr) (t2 : CType) :
    isIdenticalExpr (.binOp o1 l1 r1 t1) (.binOp o2 l2 r2 t2) =
      (!(Expr.hasSideEffects (.binOp o1 l1 r1 t1) ||
         Expr.hasSideEffects (.binOp o2 l2 r2 t2)) &&
       (isIdenticalExpr l1 l2 && isIdenticalExpr r1 r2) && decide (o1 = o2)) := by
  show isIdentFuel ((Expr.binOp o1 l1 r1 t1).size + (Expr.binOp o2 l2 r2 t2).size) _ _ = _
  rw [show (Expr.binOp o1 l1 r1 t1).size + (Expr.binOp o2 l2 r2 t2).size =
        (l1.size + r1.size + 1 + (l2.size + r2.size)) + 1 from by
        simp only [Expr.size]; omega]
  show (!(Expr.hasSideEffects (.binOp o1 l1 r1 t1) ||
          Expr.hasSideEffects (.binOp o2 l2 r2 t2)) &&
        (isIdentFuel (l1.size + r1.size + 1 + (l2.size + r2.size)) l1 l2 &&
         isIdentFuel (l1.size + r1.size + 1 + (l2.size + r2.size)) r1 r2) &&
        decide (o1 = o2)) = _
  rw [isIdentFuel_eq _ l1 l2 (by omega), isIdentFuel_eq _ r1 r2 (by omega)]

theorem identical_call (f1 : Expr) (a1 : ExprList) (p1 : Bool) (t1 : CType)
    (f2 : Expr) (a2 : ExprList) (p2 : Bool) (t2 : CType) :
    isIdenticalExpr (.call f1 a1 p1 t1) (.call f2 a2 p2 t2) =
      (!(Expr.hasSideEffects (.call f1 a1 p1 t1) ||
         Expr.hasSideEffects (.call f2 a2 p2 t2)) &&
       (isIdenticalExpr f1 f2 && isIdenticalList a1 a2)) := by
  have hf1 := Expr.size_pos f1
  have hf2 := Expr.size_pos f2
  show isIdentFuel ((Expr.call f1 a1 p1 t1).size + (Expr.call f2 a2 p2 t2).size) _ _ = _
  rw [show (Expr.call f1 a1 p1 t1).size + (Expr.call f2 a2 p2 t2).size =
        (f1.size + a1.size + 1 + (f2.size + a2.size)) + 1 from by
        simp only [Expr.size]; omega]
  show (!(Expr.hasSideEffects (.call f1 a1 p1 t1) ||
          Expr.hasSideEffects (.call f2 a2 p2 t2)) &&
        (isIdentFuel (f1.size + a1.size + 1 + (f2.size + a2.size)) f1 f2 &&
         isIdentListFuel (f1.size + a1.size + 1 + (f2.size + a2.size)) a1 a2)) = _
  rw [isIdentFuel_eq _ f1 f2 (by omega), isIdentListFuel_eq _ a1 a2 (by omega)]

theorem identical_member (b1 : Expr) (m1 : Decl) (t1 : CType)
    (b2 : Expr) (m2 : Decl) (t2 : CType) :
    isIdenticalExpr (.member b1 m1 t1) (.member b2 m2 t2) =
      (!(Expr.hasSideEffects (.member b1 m1 t1) ||
         Expr.hasSideEffects (.member b2 m2 t2)) &&
       isIdenticalExpr b1 b2 && decide (m1 = m2)) := by
  show isIdentFuel ((Expr.member b1 m1 t1).size + (Expr.member b2 m2 t2).size) _ _ = _
  rw [show (Expr.member b1 m1 t1).size + (Expr.member b2 m2 t2).size =
        (b1.size + 1 + b2.size) + 1 from by simp only [Expr.size]; omega]
  show (!(Expr.hasSideEffects (.member b1 m1 t1) ||
          Expr.hasSideEffects (.member b2 m2 t2)) &&
        isIdentFuel (b1.size + 1 + b2.size) b1 b2 && decide (m1 = m2)) = _
  rw [isIdentFuel_eq _ b1 b2 (by omega)]

theorem identical_unOp (o1 : UnOpKind) (s1 : Expr) (t1 : CType)
    (o2 : UnOpKind) (s2 : Expr) (t2 : CType) :
    isIdenticalExpr (.unOp o1 s1 t1) (.unOp o2 s2 t2) =
      (!(Expr.hasSideEffects (.unOp o1 s1 t1) ||
         Expr.hasSideEffects (.unOp o2 s2 t2)) &&
       isIdenticalExpr s1 s2 && decide (o1 = o2)) := by
  show isIdentFuel ((Expr.unOp o1 s1 t1).size + (Expr.unOp o2 s2 t2).size) _ _ = _
  rw [show (Expr.unOp o1 s1 t1).size + (Expr.unOp o2 s2 t2).size =
        (s1.size + 1 + s2.size) + 1 from by simp only [Expr.size]; omega]
  show (!(Expr.hasSideEffects (.unOp o1 s1 t1) ||
          Expr.hasSideEffects (.unOp o2 s2 t2)) &&
        isIdentFuel (s1.size + 1 + s2.size) s1 s2 && decide (o1 = o2)) = _
  rw [isIdentFuel_eq _ s1 s2 (by omega)]

theorem identical_cCast (w1 : CType) (s1 : Expr) (w2 : CType) (s2 : Expr) :
    isIdenticalExpr (.cCast w1 s1) (.cCast w2 s2) =
      (!(Expr.hasSideEffects (.cCast w1 s1) || Expr.hasSideEffects (.cCast w2 s2)) &&
       isIdenticalExpr s1 s2 && decide (w1 = w2)) := by
  show isIdentFuel ((Expr.cCast w1 s1).size + (Expr.cCast w2 s2).size) _ _ = _
  rw [show (Expr.cCast w1 s1).size + (Expr.cCast w2 s2).size =
        (s1.size + 1 + s2.size) + 1 from by simp only [Expr.size]; omega]
  show (!(Expr.hasSideEffects (.cCast w1 s1) || Expr.hasSideEffects (.cCast w2 s2)) &&
        isIdentFuel (s1.size + 1 + s2.size) s1 s2 && decide (w1 = w2)) = _
  rw [isIdentFuel_eq _ s1 s2 (by omega)]

theorem identical_declRef (d1 : Decl) (t1 : CType) (d2 : Decl) (t2 : CType) :
    isIdenticalExpr (.declRef d1 t1) (.declRef d2 t2) = decide (d1 = d2) := rfl

theorem identical_intLit (w1 v1 : Nat) (t1 : CType) (w2 v2 : Nat) (t2 : CType) :
    isIdenticalExpr (.intLit w1 v1 t1) (.intLit w2 v2 t2) =
      (decide (w1 = w2) && decide (v1 = v2)) := rfl

theorem identical_floatLit (b1 : Nat) (t1 : CType) (b2 : Nat) (t2 : CType) :
    isIdenticalExpr (.floatLit b1 t1) (.floatLit b2 t2) = decide (b1 = b2) := rfl

theorem identical_charLit (v1 : Nat) (t1 : CType) (v2 : Nat) (t2 : CType) :
    isIdenticalExpr (.charLit v1 t1) (.charLit v2 t2) = decide (v1 = v2) := rfl

theorem identical_strLit (s1 : List Nat) (t1 : CType) (s2 : List Nat) (t2 : CType) :
    isIdenticalExpr (.strLit s1 t1) (.strLit s2 t2) = decide (s1 = s2) := rfl

theorem identical_condOp (c1 x1 y1 : Expr) (t1 : CType) (c2 x2 y2 : Expr) (t2 : CType) :
    isIdenticalExpr (.condOp c1 x1 y1 t1) (.condOp c2 x2 y2 t2) = false := rfl

theorem identicalList_nil : isIdenticalList .nil .nil = true := rfl

theorem identicalList_cons (a : Expr) (as : ExprList) (b : Expr) (bs : ExprList) :
    isIdenticalList (.cons a as) (.cons b bs) =
      (isIdenticalExpr a b && isIdenticalList as bs) := by
  have ha := Expr.size_pos a
  have hb := Expr.size_pos b
  show isIdentListFuel ((ExprList.cons a as).size + (ExprList.cons b bs).size + 1) _ _ = _
  rw [show (ExprList.cons a as).size + (ExprList.cons b bs).size + 1 =
        (a.size + as.size + (b.size + bs.size)) + 1 from by
        simp only [ExprList.size] <;> omega]
  show (isIdentFuel (a.size + as.size + (b.size + bs.size)) a b &&
        isIdentListFuel (a.size + as.size + (b.size + bs.size)) as bs) = _
  rw [isIdentFuel_eq _ a b (by omega), isIdentListFuel_eq _ as bs (by omega)]

/-! ### Algebraic properties of the oracle -/

/-- The oracle is symmetric (joint statement with the child-list
comparison), proved by strong induction on total size. -/
theorem identical_symm_aux : ∀ N : Nat,
    (∀ e1 e2 : Expr, e1.size + e2.size ≤ N →
      isIdenticalExpr e1 e2 = isIdenticalExpr e2 e1) ∧
    (∀ l1 l2 : ExprList, l1.size + l2.size + 1 ≤ N →
      isIdenticalList l1 l2 = isIdenticalList l2 l1) := by
  intro N
  induction N using Nat.strong_induction_on with
  | _ N ih =>
    constructor
    · intro e1 e2 h
      cases e1 <;> cases e2 <;>
        first
        | rfl
        | (simp only [identical_paren_left, identical_implCast_left,
            identical_paren_right, identical_implCast_right]
           refine (ih _ ?_).1 _ _ le_rfl
           ( try simp only [Expr.size] at h); ( try simp only [Expr.size])
           omega)
        | (simp only [identical_declRef, identical_intLit, identical_floatLit,
            identical_charLit, identical_strLit]
           simp [eq_comm])
        | (simp only [identical_arraySub, identical_binOp, identical_call,
            identical_member, identical_unOp, identical_cCast]
           repeat' refine band_congr ?_ ?_
           all_goals
             first
             | rfl
             | rw [Bool.or_comm]
             | simp [eq_comm]
             | (refine (ih _ ?_).1 _ _ le_rfl
                ( try simp only [Expr.size, ExprList.size] at h)
                ( try simp only [Expr.size, ExprList.size])
                omega)
             | (refine (ih _ ?_).2 _ _ le_rfl
                ( try simp only [Expr.size, ExprList.size] at h)
                ( try simp only [Expr.size, ExprList.size])
                omega))
    · intro l1 l2 h
      cases l1 with
      | nil => cases l2 <;> rfl
      | cons a as =>
        cases l2 with
        | nil => rfl
        | cons b bs =>
          have ha := Expr.size_pos a
          have hb := Expr.size_pos b
          simp only [identicalList_cons]
          refine band_congr ((ih _ ?_).1 _ _ le_rfl) ((ih _ ?_).2 _ _ le_rfl) <;>
            ( try simp only [ExprList.size] at h) <;> omega

/-- Reflexivity of the oracle on side-effect-free, wholly supported
expressions (joint statement with lists). -/
theorem identical_refl_aux : ∀ N : Nat,
    (∀ e : Expr, e.size ≤ N → e.hasSideEffects = false → idSupported e = true →
      isIdenticalExpr e e = true) ∧
    (∀ l : ExprList, l.size + 1 ≤ N → l.anySideEffects = false → idSupportedList l = true →
      isIdenticalList l l = true) := by
  intro N
  induction N using Nat.strong_induction_on with
  | _ N ih =>
    constructor
    · intro e h hse hsup
      cases e with
      | arraySub b i t =>
        simp only [Expr.hasSideEffects, Bool.or_eq_false_iff] at hse
        simp only [idSupported, Bool.and_eq_true] at hsup
        simp only [Expr.size] at h
        have hb := (ih b.size (by omega)).1 b le_rfl hse.1 hsup.1
        have hi := (ih i.size (by omega)).1 i le_rfl hse.2 hsup.2
        simp [identical_arraySub, Expr.hasSideEffects, hse.1, hse.2, hb, hi]
      | binOp o l r t =>
        simp only [Expr.hasSideEffects, Bool.or_eq_false_iff] at hse
        obtain ⟨⟨ho, hl⟩, hr⟩ := hse
        simp only [idSupported, Bool.and_eq_true] at hsup
        simp only [Expr.size] at h
        have h1 := (ih l.size (by omega)).1 l le_rfl hl hsup.1
        have h2 := (ih r.size (by omega)).1 r le_rfl hr hsup.2
        simp [identical_binOp, Expr.hasSideEffects, ho, hl, hr, h1, h2]
      | call f args p t =>
        simp only [idSupported, Bool.and_eq_true] at hsup
        simp only [Expr.size] at h
        have hfp := Expr.size_pos f
        cases p with
        | false => simp [Expr.hasSideEffects] at hse
        | true =>
          simp only [Expr.hasSideEffects] at hse
          simp at hse
          obtain ⟨hse1, hse2⟩ := hse
          have h1 := (ih f.size (by omega)).1 f le_rfl hse1 hsup.1
          have h2 := (ih (args.size + 1) (by omega)).2 args le_rfl hse2 hsup.2
          simp [identical_call, Expr.hasSideEffects, hse1, hse2, h1, h2]
      | declRef d t => simp [identical_declRef]
      | member b m t =>
        simp only [Expr.hasSideEffects] at hse
        simp only [idSupported] at hsup
        simp only [Expr.size] at h
        have h1 := (ih b.size (by omega)).1 b le_rfl hse hsup
        simp [identical_member, Expr.hasSideEffects, hse, h1]
      | unOp o s t =>
        simp only [Expr.hasSideEffects, Bool.or_eq_false_iff] at hse
        simp only [idSupported] at hsup
        simp only [Expr.size] at h
        have h1 := (ih s.size (by omega)).1 s le_rfl hse.2 hsup
        simp [identical_unOp, Expr.hasSideEffects, hse.1, hse.2, h1]
      | paren s =>
        simp only [Expr.hasSideEffects] at hse
        simp only [idSupported] at hsup
        simp only [Expr.size] at h
        rw [identical_paren_left, identical_paren_right]
        exact (ih s.size (by omega)).1 s le_rfl hse hsup
      | implCast s ty =>
        simp only [Expr.hasSideEffects] at hse
        simp only [idSupported] at hsup
        simp only [Expr.size] at h
        rw [identical_implCast_left, identical_implCast_right]
        exact (ih s.size (by omega)).1 s le_rfl hse hsup
      | cCast w s =>
        simp only [Expr.hasSideEffects] at hse
        simp only [idSupported] at hsup
        simp only [Expr.size] at h
        have h1 := (ih s.size (by omega)).1 s le_rfl hse hsup
        simp [identical_cCast, Expr.hasSideEffects, hse, h1]
      | intLit w v t => simp [identical_intLit]
      | floatLit b t => simp [identical_floatLit]
      | charLit v t => simp [identical_charLit]
      | strLit s t => simp [identical_strLit]
      | condOp c x y t => simp [idSupported] at hsup
    · intro l h hse hsup
      cases l with
      | nil => rfl
      | cons a as =>
        have ha := Expr.size_pos a
        simp only [ExprList.anySideEffects, Bool.or_eq_false_iff] at hse
        simp only [idSupportedList, Bool.and_eq_true] at hsup
        simp only [ExprList.size] at h
        have h1 := (ih a.size (by omega)).1 a le_rfl hse.1 hsup.1
        have h2 := (ih (as.size + 1) (by omega)).2 as le_rfl hse.2 hsup.2
        simp [identicalList_cons, h1, h2]

/-- An expression with observable side effects is identical to nothing. -/
theorem identical_sefalse_aux : ∀ N : Nat, ∀ e1 e2 : Expr,
    e1.size + e2.size ≤ N → e1.hasSideEffects = true →
    isIdenticalExpr e1 e2 = false := by
  intro N
  induction N using Nat.strong_induction_on with
  | _ N ih =>
    intro e1 e2 h hse
    cases e1 <;> cases e2 <;>
      first
      | rfl
      | (simp only [Expr.hasSideEffects] at hse; exact Bool.noConfusion hse)
      | (rw [identical_paren_left]
         simp only [Expr.hasSideEffects] at hse
         refine ih _ ?_ _ _ le_rfl hse
         ( try simp only [Expr.size] at h); ( try simp only [Expr.size])
         omega)
      | (rw [identical_implCast_left]
         simp only [Expr.hasSideEffects] at hse
         refine ih _ ?_ _ _ le_rfl hse
         ( try simp only [Expr.size] at h); ( try simp only [Expr.size])
         omega)
      | (rw [identical_paren_right]
         refine ih _ ?_ _ _ le_rfl hse
         ( try simp only [Expr.size] at h); ( try simp only [Expr.size])
         omega)
      | (rw [identical_implCast_right]
         refine ih _ ?_ _ _ le_rfl hse
         ( try simp only [Expr.size] at h); ( try simp only [Expr.size])
         omega)
      | (simp only [identical_arraySub, identical_binOp, identical_call,
          identical_member, identical_unOp, identical_cCast]
         rw [hse]
         simp)


/-! ### Cache keys stay within their function -/

/-- New cache entries of the validity filter carry the key of the current
statement: a key predicate holding of every entry and of the current key
keeps holding of every entry afterwards. -/
theorem isValidExpr_keys (P : StmtKey → Prop) (st : DetState) (key : StmtKey)
    (s : Stmt) (eref : NodeRef) (e : Expr) (hk : P key)
    (hiv : ∀ kv ∈ st.invalidExprsInUOBO, P kv.1)
    (htv : ∀ kv ∈ st.tmpVarsInStmt, P kv.1) :
    (∀ kv ∈ (isValidExpr st key s eref e).2.invalidExprsInUOBO, P kv.1) ∧
    (∀ kv ∈ (isValidExpr st key s eref e).2.tmpVarsInStmt, P kv.1) := by
  rcases isValidExpr_state st key s eref e with ⟨iv, uq, tv, hM, hiv2, _, htv2, _⟩
  rw [hM]
  constructor
  · show ∀ kv ∈ iv, P kv.1
    rcases hiv2 with h | h
    · subst h; exact hiv
    · subst h
      intro kv hm
      rcases mem_aupdate _ _ _ kv hm with h2 | h2
      · exact hiv kv h2
      · rw [h2]; exact hk
  · show ∀ kv ∈ tv, P kv.1
    rcases htv2 with h | h
    · subst h; exact htv
    · subst h
      intro kv hm
      rcases mem_aupdate _ _ _ kv hm with h2 | h2
      · exact htv kv h2
      · rw [h2]; exact hk

/-- One visit preserves a key predicate on the persistent caches, provided
it holds of the current statement's key. -/
theorem visitExpr_keys (P : StmtKey → Prop) (c fIdx sIdx : Nat) (s : Stmt)
    (rs : RunState) (node : NodeRef × Expr) (hk : P (fIdx, sIdx))
    (hiv : ∀ kv ∈ rs.st.invalidExprsInUOBO, P kv.1)
    (htv : ∀ kv ∈ rs.st.tmpVarsInStmt, P kv.1) :
    (∀ kv ∈ (visitExpr c fIdx sIdx s rs node).st.invalidExprsInUOBO, P kv.1) ∧
    (∀ kv ∈ (visitExpr c fIdx sIdx s rs node).st.tmpVarsInStmt, P kv.1) := by
  have h := isValidExpr_keys P rs.st (fIdx, sIdx) s node.1 node.2 hk hiv htv
  simp only [visitExpr]
  split
  · exact ⟨hiv, htv⟩
  split
  · exact ⟨hiv, htv⟩
  split
  · exact ⟨h.1, h.2⟩
  · exact ⟨h.1, h.2⟩

/-- Walking one function only adds cache entries keyed by that function's
index, and ends with the unique-expression list and the temporary registry
cleared. -/
theorem processFunc_keys (c j : Nat) (fd : FuncDef) (rs : RunState)
    (hu : rs.st.uniqueExprs = []) (hp : rs.st.processedExprs = [])
    (hiv : ∀ kv ∈ rs.st.invalidExprsInUOBO, kv.1.1 < j)
    (htv : ∀ kv ∈ rs.st.tmpVarsInStmt, kv.1.1 < j) :
    (processFunc c rs (j, fd)).st.uniqueExprs = [] ∧
    (processFunc c rs (j, fd)).st.processedExprs = [] ∧
    (∀ kv ∈ (processFunc c rs (j, fd)).st.invalidExprsInUOBO, kv.1.1 < j + 1) ∧
    (∀ kv ∈ (processFunc c rs (j, fd)).st.tmpVarsInStmt, kv.1.1 < j + 1) := by
  simp only [processFunc]
  split
  · exact ⟨hu, hp, fun kv hm => Nat.lt_succ_of_lt (hiv kv hm),
      fun kv hm => Nat.lt_succ_of_lt (htv kv hm)⟩
  · obtain ⟨_, _, _, f4, f5⟩ := tempVarPass_fields fd.body rs.st
    have hstep : ∀ (a : RunState) (b : Nat × Stmt),
        ((∀ kv ∈ a.st.invalidExprsInUOBO, kv.1.1 ≤ j) ∧
         (∀ kv ∈ a.st.tmpVarsInStmt, kv.1.1 ≤ j)) →
        ((∀ kv ∈ (processStmt c j a b).st.invalidExprsInUOBO, kv.1.1 ≤ j) ∧
         (∀ kv ∈ (processStmt c j a b).st.tmpVarsInStmt, kv.1.1 ≤ j)) := by
      intro a b hI
      exact foldl_inv
        (P := fun (rs2 : RunState) =>
          (∀ kv ∈ rs2.st.invalidExprsInUOBO, kv.1.1 ≤ j) ∧
          (∀ kv ∈ rs2.st.tmpVarsInStmt, kv.1.1 ≤ j))
        (visitExpr c j b.1 b.2)
        (fun a2 b2 hI2 =>
          visitExpr_keys (fun key => key.1 ≤ j) c j b.1 b.2 a2 b2 le_rfl hI2.1 hI2.2)
        _ _ hI
    have hMid := foldl_inv
      (P := fun (rs2 : RunState) =>
        (∀ kv ∈ rs2.st.invalidExprsInUOBO, kv.1.1 ≤ j) ∧
        (∀ kv ∈ rs2.st.tmpVarsInStmt, kv.1.1 ≤ j))
      (processStmt c j) hstep fd.body.enum
      { rs with st := tempVarPass fd.body rs.st }
      ⟨by
        show ∀ kv ∈ (tempVarPass fd.body rs.st).invalidExprsInUOBO, kv.1.1 ≤ j
        rw [f4]
        exact fun kv hm => Nat.le_of_lt (hiv kv hm),
       by
        show ∀ kv ∈ (tempVarPass fd.body rs.st).tmpVarsInStmt, kv.1.1 ≤ j
        rw [f5]
        exact fun kv hm => Nat.le_of_lt (htv kv hm)⟩
    exact ⟨rfl, rfl, fun kv hm => Nat.lt_succ_of_le (hMid.1 kv hm),
      fun kv hm => Nat.lt_succ_of_le (hMid.2 kv hm)⟩

/-! ### The claims -/

/-- Claim C1: selection is deterministic and ordinal-faithful.  For every
program and every requested ordinal `c ≥ 1`, the accepted-candidate list
of the run is the one fixed traversal-order list of the program (so two
runs with the same ordinal latch the same triple), the final ordinal
counter equals its length (the counter is bumped exactly once per accepted
candidate), and the latched triple is exactly the `c`-th accepted
candidate when it exists. -/
theorem claim1_ordinal_selection (p : Program) (c : Nat) (hc : 1 ≤ c) :
    (runCollection c p).acc = acceptedCandidates p ∧
    (runCollection c p).st.validInstanceNum = (acceptedCandidates p).length ∧
    (runCollection c p).st.theTriple = (acceptedCandidates p)[c - 1]? := by
  have hO := runCollection_ordinalInv c p hc
  have hR := runCollection_runRel c 0 p
  have hAcc : (runCollection c p).acc = acceptedCandidates p := hR.1
  exact ⟨hAcc, by rw [hO.1, hAcc], by rw [hO.2, hAcc]⟩

/-- Witness for C1: on the `abort(a);` program with ordinal 1 the run
latches the single accepted candidate. -/
theorem claim1_ordinal_selection_witness :
    (acceptedCandidates p4).length = 1 ∧
    (runCollection 1 p4).st.theTriple = (acceptedCandidates p4)[1 - 1]? ∧
    (runCollection 1 p4).st.theTriple = some tAbort :=
  ⟨by decide, (claim1_ordinal_selection p4 1 (by decide)).2.2, by decide⟩

/-- Counterexample to C2 as stated: after walking the first function of
`p2`, the invalid-expression set and the temporary registry still hold
that function's entries — only the unique-expression list (and the
processed-expression registry) is cleared, so not all three named caches
are reset at the start of the next function. -/
theorem claim2_counterexample :
    (runPrefix 1 p2 1).st.invalidExprsInUOBO = [((0, 0), [])] ∧
    (runPrefix 1 p2 1).st.tmpVarsInStmt = [((0, 0), [])] ∧
    (runPrefix 1 p2 1).st.uniqueExprs = [] :=
  ⟨by decide, by decide, by decide⟩

/-- Claim C2 (amended): at the start of function `k` the unique-expression
list and the processed-expression registry are empty; the
invalid-expression set and the per-statement temporary cache are NOT
cleared, but every entry they hold is keyed by an earlier function, so the
lookups function `k` performs on them come back empty — no cache state of
one function is ever consulted while walking a later one. -/
theorem claim2_cache_isolation (c : Nat) (p : Program) (k : Nat) :
    (runPrefix c p k).st.uniqueExprs = [] ∧
    (runPrefix c p k).st.processedExprs = [] ∧
    (∀ kv ∈ (runPrefix c p k).st.invalidExprsInUOBO, kv.1.1 < k) ∧
    (∀ kv ∈ (runPrefix c p k).st.tmpVarsInStmt, kv.1.1 < k) ∧
    (∀ sIdx : Nat,
      alookup (runPrefix c p k).st.invalidExprsInUOBO (k, sIdx) = none ∧
      alookup (runPrefix c p k).st.tmpVarsInStmt (k, sIdx) = none) := by
  have main : ∀ k : Nat,
      (runPrefix c p k).st.uniqueExprs = [] ∧
      (runPrefix c p k).st.processedExprs = [] ∧
      (∀ kv ∈ (runPrefix c p k).st.invalidExprsInUOBO, kv.1.1 < k) ∧
      (∀ kv ∈ (runPrefix c p k).st.tmpVarsInStmt, kv.1.1 < k) := by
    intro k
    induction k with
    | zero =>
      refine ⟨rfl, rfl, ?_, ?_⟩ <;>
        · intro kv hm
          simp [runPrefix, initRun, initState] at hm
    | succ k ih =>
      obtain ⟨hu, hp, hiv, htv⟩ := ih
      rcases Nat.lt_or_ge k p.funcs.length with hk | hk
      · have hstep : runPrefix c p (k + 1) =
            processFunc c (runPrefix c p k) (k, p.funcs[k]) := by
          simp only [runPrefix]
          rw [List.take_succ, List.getElem?_enum, List.getElem?_eq_getElem hk,
            List.foldl_append]
          rfl
        rw [hstep]
        exact processFunc_keys c k (p.funcs[k]) _ hu hp hiv htv
      · have hstep : runPrefix c p (k + 1) = runPrefix c p k := by
          simp only [runPrefix]
          rw [List.take_succ, List.getElem?_enum, List.getElem?_eq_none hk]
          simp
        rw [hstep]
        exact ⟨hu, hp, fun kv hm => Nat.lt_succ_of_lt (hiv kv hm),
          fun kv hm => Nat.lt_succ_of_lt (htv kv hm)⟩
  obtain ⟨hu, hp, hiv, htv⟩ := main k
  refine ⟨hu, hp, hiv, htv, fun sIdx => ⟨?_, ?_⟩⟩
  · refine alookup_eq_none _ _ (fun kv hm hEq => ?_)
    have h2 := hiv kv hm
    rw [hEq] at h2
    simp at h2
  · refine alookup_eq_none _ _ (fun kv hm hEq => ?_)
    have h2 := htv kv hm
    rw [hEq] at h2
    simp at h2

/-- Witness for C2: the stale entry of `p2`'s first function is keyed
below the next function index, and the next function's lookup misses. -/
theorem claim2_cache_isolation_witness :
    (runPrefix 1 p2 1).st.uniqueExprs = [] ∧
    (((0, 0), ([] : List NodeRef)) ∈ (runPrefix 1 p2 1).st.invalidExprsInUOBO) ∧
    ((((0, 0), ([] : List NodeRef)) : StmtKey × List NodeRef).1.1 < 1 ∧
      alookup (runPrefix 1 p2 1).st.invalidExprsInUOBO (1, 0) = none) :=
  ⟨(claim2_cache_isolation 1 p2 1).1,
   by decide,
   ⟨(claim2_cache_isolation 1 p2 1).2.2.1 ((0, 0), []) (by decide),
    ((claim2_cache_isolation 1 p2 1).2.2.2.2 0).1⟩⟩

/-- Counterexample to C3 as stated: the conditional expression `e0` has no
side effects, yet the oracle does not equate it with itself — the
`default:` branch of the class switch answers false for every expression
class it does not handle. -/
theorem claim3_counterexample :
    e0.hasSideEffects = false ∧ isIdenticalExpr e0 e0 = false :=
  ⟨by decide, by decide⟩

/-- Claim C3 (amended): the structural-equality oracle is symmetric on all
expressions; it is reflexive on side-effect-free expressions all of whose
sub-expressions fall into the classes its switch handles (reflexivity
fails on the unhandled classes); and an expression with side effects
equals nothing, itself included. -/
theorem claim3_oracle_equality :
    (∀ e1 e2 : Expr, isIdenticalExpr e1 e2 = isIdenticalExpr e2 e1) ∧
    (∀ e : Expr, e.hasSideEffects = false → idSupported e = true →
      isIdenticalExpr e e = true) ∧
    (∀ e1 e2 : Expr, e1.hasSideEffects = true → isIdenticalExpr e1 e2 = false) :=
  ⟨fun e1 e2 => (identical_symm_aux (e1.size + e2.size)).1 e1 e2 le_rfl,
   fun e h1 h2 => (identical_refl_aux e.size).1 e le_rfl h1 h2,
   fun e1 e2 h => identical_sefalse_aux (e1.size + e2.size) e1 e2 le_rfl h⟩

/-- Witness for C3: `y[1]` is side-effect free and supported, hence equal
to itself; `x++` has side effects, hence equal to nothing. -/
theorem claim3_oracle_equality_witness :
    (y1.hasSideEffects = false ∧ idSupported y1 = true ∧
      isIdenticalExpr y1 y1 = true) ∧
    ((Expr.unOp .postInc (.declRef xD intTy) intTy).hasSideEffects = true ∧
      isIdenticalExpr (Expr.unOp .postInc (.declRef xD intTy) intTy) y1 = false) :=
  ⟨⟨by decide, by decide, claim3_oracle_equality.2.1 y1 (by decide) (by decide)⟩,
   ⟨by decide, claim3_oracle_equality.2.2 _ y1 (by decide)⟩⟩

/-- Counterexample to C4 as stated: in reference-check mode the reporting
function is `abort`, yet on the program `abort(a);` the run latches the
argument `a` — the filter did not reject it, because the rejection is
keyed to the literal name `printf`, not to the configured reporting
function. -/
theorem claim4_counterexample :
    reportFuncName true = "abort" ∧
    stmtAsCallCallee sAbort = some abortD ∧
    (runCollection 1 p4).st.theTriple = some tAbort ∧
    tAbort.expr = Expr.declRef aD intTy :=
  ⟨rfl, rfl, by decide, rfl⟩

/-- Claim C4 (amended): a name-reference candidate whose enclosing
statement is a direct call to a function literally named `printf` is
rejected by the validity filter — in either mode. -/
theorem claim4_printf_arg_rejected (st : DetState) (key : StmtKey) (s : Stmt)
    (eref : NodeRef) (d : Decl) (ty : CType) (fd : Decl)
    (hcall : stmtAsCallCallee s = some fd) (hname : fd.name = "printf") :
    (isValidExpr st key s eref (Expr.declRef d ty)).1 = false := by
  have hrej : declRefReject (Expr.declRef d ty) s = true := by
    simp [declRefReject, hcall, hname]
  simp only [isValidExpr]
  repeat' split
  all_goals first | rfl | simp_all

/-- Witness for C4: the argument `a` of `printf(a);` is rejected. -/
theorem claim4_printf_arg_rejected_witness :
    stmtAsCallCallee sPrintf = some printfD ∧ printfD.name = "printf" ∧
    (isValidExpr initState (0, 0) sPrintf (0, [1]) (Expr.declRef aD intTy)).1 = false :=
  ⟨rfl, rfl,
   claim4_printf_arg_rejected initState (0, 0) sPrintf (0, [1]) aD intTy printfD rfl rfl⟩

/-- Counterexample to C5 as stated: in `p5run` the candidate `y[1]` of the
statement `x = __cvise_expr_tmp_1 + y[1];` is rejected (only the sum is
accepted), yet the statement's unique-expression list has gained it — the
push onto the list happens before the temporary-reuse rejection. -/
theorem claim5_counterexample :
    alookup p5run.st.uniqueExprs (0, 1) = some [addE, y1] ∧
    p5run.acc = [⟨0, 1, (0, [1]), sAsgn, addE⟩] ∧
    p5run.st.validInstanceNum = 1 :=
  ⟨by decide, by decide, by decide⟩

/-- Claim C5 (amended): the validity filter never changes the ordinal
counter or the latched triple (on rejection or acceptance alike — though a
rejected candidate may still be pushed onto the unique-expression list),
and on acceptance the statement's unique-expression list has gained
exactly the candidate at its end. -/
theorem claim5_rejection_frame (st : DetState) (key : StmtKey) (s : Stmt)
    (eref : NodeRef) (e : Expr) :
    (isValidExpr st key s eref e).2.validInstanceNum = st.validInstanceNum ∧
    (isValidExpr st key s eref e).2.theTriple = st.theTriple ∧
    ((isValidExpr st key s eref e).1 = true →
      alookup (isValidExpr st key s eref e).2.uniqueExprs key =
        some ((alookup st.uniqueExprs key).getD [] ++ [e])) :=
  ⟨(isValidExpr_frame st key s eref e).1,
   (isValidExpr_frame st key s eref e).2.1,
   fun h => isValidExpr_accept_push st key s eref e h⟩

/-- Witness for C5: accepting `x` in `x + y;` pushes it onto the empty
unique-expression list of the statement. -/
theorem claim5_rejection_frame_witness :
    (isValidExpr initState (0, 0) sAdd (0, [0]) (Expr.declRef xD intTy)).1 = true ∧
    alookup (isValidExpr initState (0, 0) sAdd (0, [0])
        (Expr.declRef xD intTy)).2.uniqueExprs (0, 0) =
      some ((alookup initState.uniqueExprs (0, 0)).getD [] ++ [Expr.declRef xD intTy]) :=
  ⟨by decide,
   (claim5_rejection_frame initState (0, 0) sAdd (0, [0])
     (Expr.declRef xD intTy)).2.2 (by decide)⟩

/-- Claim C6: a requested ordinal strictly greater than the number of
accepted candidates makes the pass report the max-instance error and
request no edit; and an unsupported-dialect (C++) program yields zero
candidates. -/
theorem claim6_max_instance_error :
    (∀ (cfg : Config) (nfd : Bool) (tm cm : Nat) (p : Program),
      cfg.queryInstanceOnly = false →
      (acceptedCandidates p).length < cfg.counter →
      runPass cfg nfd tm cm p = ⟨some TransErr.maxInstance, none⟩) ∧
    (∀ p : Program, p.isCXX = true → acceptedCandidates p = []) := by
  constructor
  · intro cfg nfd tm cm p hq hlen
    have hc : 1 ≤ cfg.counter := by omega
    have hO := runCollection_ordinalInv cfg.counter p hc
    have hR := runCollection_runRel cfg.counter 0 p
    have hgt : (runCollection cfg.counter p).st.validInstanceNum < cfg.counter := by
      have hAcc : (runCollection cfg.counter p).acc = acceptedCandidates p := hR.1
      rw [hO.1, hAcc]
      exact hlen
    simp [runPass, hq, hgt]
  · intro p hcxx
    simp [acceptedCandidates, runCollection, hcxx, initRun]

/-- Witness for C6: ordinal 5 on `x++;` (zero candidates) reports the
max-instance error; the empty C++ program has no candidates. -/
theorem claim6_max_instance_error_witness :
    (acceptedCandidates pXpp).length < 5 ∧
    runPass ⟨5, false, "", none, false⟩ false 0 0 pXpp =
      ⟨some TransErr.maxInstance, none⟩ ∧
    acceptedCandidates ⟨true, []⟩ = [] :=
  ⟨by decide,
   claim6_max_instance_error.1 ⟨5, false, "", none, false⟩ false 0 0 pXpp rfl (by decide),
   claim6_max_instance_error.2 ⟨true, []⟩ rfl⟩

/-- Claim C7: a candidate whose node reference lies in the statement's
set of increment/decrement/address-of operands and assignment left-hand
sides is rejected by the validity filter (whether the set is computed
fresh or read back from the cache), and on the program `x++;` the
candidate set is empty. -/
theorem claim7_uobo_rejection :
    (∀ (st : DetState) (key : StmtKey) (s : Stmt) (eref : NodeRef) (e : Expr),
      (alookup st.invalidExprsInUOBO key = none ∨
        alookup st.invalidExprsInUOBO key = some (computeUOBO s)) →
      (computeUOBO s).contains eref = true →
      (isValidExpr st key s eref e).1 = false) ∧
    acceptedCandidates pXpp = [] := by
  constructor
  · intro st key s eref e hcache hmem
    cases hca : alookup st.invalidExprsInUOBO key with
    | none =>
      simp only [isValidExpr, hca]
      repeat' split
      all_goals first | rfl | simp_all
    | some inv =>
      have hinv : inv = computeUOBO s := by
        rcases hcache with h | h
        · rw [hca] at h; exact Option.noConfusion h
        · rw [hca] at h; exact Option.some.inj h
      subst hinv
      simp only [isValidExpr, hca]
      repeat' split
      all_goals first | rfl | simp_all
  · decide

/-- Witness for C7: in `x++;` the stripped operand `x` is in the
increment-operand set and is rejected. -/
theorem claim7_uobo_rejection_witness :
    (computeUOBO sXpp).contains ((0 : Nat), [(0 : Nat)]) = true ∧
    (isValidExpr initState (0, 0) sXpp (0, [0]) (Expr.declRef xD intTy)).1 = false :=
  ⟨by decide,
   claim7_uobo_rejection.1 initState (0, 0) sXpp (0, [0]) (Expr.declRef xD intTy)
     (Or.inl rfl) (by decide)⟩

/-- Claim C8: the instrumentation text `doRewrite` inserts is exactly the
spec's description — capture temporary of the expression's static type,
static guard counter initialized to zero, a guard block that calls the
reporting/abort function only when the counter equals the fire-on-instance
number, and an unconditional increment of the counter; the expression is
replaced by the temporary's name, parenthesized exactly when the statement
is not a declaration. -/
theorem claim8_emitted_text_shape (cfg : Config) (nfd : Bool)
    (tmpMax ctrlMax : Nat) (t : Triple) :
    (doRewrite cfg nfd tmpMax ctrlMax t).insertedText =
      specCaptureLine (renderCType t.expr.qualType) (specTmpVarName tmpMax)
        (renderExpr t.expr) ++
      specGuardDecl (specCtrlVarName cfg ctrlMax) ++
      specGuardBlock cfg (specTmpVarName tmpMax) (specCtrlVarName cfg ctrlMax)
        ((getFormatStr t.expr.qualType.desugarAsBuiltin).getD "") ++
      specIncrement (specCtrlVarName cfg ctrlMax) ∧
    (doRewrite cfg nfd tmpMax ctrlMax t).replacedWith = specTmpVarName tmpMax ∧
    ((doRewrite cfg nfd tmpMax ctrlMax t).needParen = true ↔
      ¬ t.stmt.stmtClass = StmtClass.declStmtC) := by
  refine ⟨?_, rfl, ?_⟩
  · obtain ⟨cnt, cr, rv, dr, qi⟩ := cfg
    simp only [doRewrite, specCaptureLine, specGuardDecl, specGuardBlock, specIncrement,
      specTmpVarName, specCtrlVarName, reportFuncName]
    cases cr <;> simp only [reduceIte, String.append_assoc]
  · simp [doRewrite, bne_iff_ne]

/-- Claim C9: once latched via the ordinal match, the triple survives the
rest of the traversal unchanged. -/
theorem claim9_latch_immutable (c : Nat) (p : Program) (k m : Nat) (t : Triple)
    (hc : 1 ≤ c) (hkm : k ≤ m)
    (hT : (runPrefix c p k).st.theTriple = some t) :
    (runPrefix c p m).st.theTriple = some t := by
  have hO := runPrefix_ordinalInv c p k hc
  have hsome : (runPrefix c p k).acc[c - 1]? = some t := by rw [← hO.2]; exact hT
  have hlt : c - 1 < (runPrefix c p k).acc.length := (List.getElem?_eq_some.mp hsome).1
  have hcnt : c ≤ (runPrefix c p k).st.validInstanceNum := by rw [hO.1]; omega
  have hdecomp : runPrefix c p m =
      ((p.funcs.enum.take m).drop k).foldl (processFunc c) (runPrefix c p k) := by
    simp only [runPrefix]
    conv_lhs => rw [← List.take_append_drop k (p.funcs.enum.take m)]
    rw [List.foldl_append, List.take_take, Nat.min_eq_left hkm]
  rw [hdecomp]
  exact (foldl_inv (P := latchInv c t) (processFunc c)
    (fun a b hI => processFunc_latchInv c t a b hI) _ _ ⟨hT, hcnt⟩).1

/-- Witness for C9: the triple `p2` latches in its first function is still
latched after its second. -/
theorem claim9_latch_immutable_witness :
    (runPrefix 1 p2 1).st.theTriple = some t2x ∧
    (runPrefix 1 p2 2).st.theTriple = some t2x :=
  ⟨by decide, claim9_latch_immutable 1 p2 1 2 t2x (by decide) (by decide) (by decide)⟩

/-- Claim C10: in the enum program `p10` the accepted candidate `y` passes
the integer-type filter, yet its type does not desugar to a builtin, so
the format-string selection lands in its failure branch — acceptance does
not make that branch unreachable. -/
theorem claim10_format_string_failure :
    t10 ∈ acceptedCandidates p10 ∧
    (runCollection 2 p10).st.theTriple = some t10 ∧
    t10.expr.qualType.isIntegerType = true ∧
    getFormatStr t10.expr.qualType.desugarAsBuiltin = none :=
  ⟨by decide, by decide, rfl, rfl⟩

end CviseExprDetector
